import Mathlib

/-! # Pre-tokenizers: configuration, factory and splitting strategies

A shallow embedding of `src/pre_tokenizer.cpp`.

* `std::string` values that are only compared and passed on (type tags, JSON
  keys, pattern sources) are Lean `String`s.  Texts that are indexed and sliced
  (`input`, the pieces) are `Text = List Char`, one element per C++ `char`.
* C++ exceptions, and the abort of a failed `assert`, are the `Error` side of
  `Except Error _`.
* `size_t` is `Nat` with an explicit `% SIZE_MOD` where the source subtracts.
* The pattern engine (`create_regex`, `IRegex::find_all`,
  `unicode_regex_split`) is a collaborator outside this file; it is a parameter
  `Env` of the embedding.
-/

namespace tokenizers

/-! ## Errors and texts -/

/-- Ways a call of this file can fail to return. -/
inductive Error where
  /-- Failure `nlohmann::json::out_of_range`: `at(key)` on an object without `key`. -/
  | json_out_of_range (key : String)
  /-- Failure `nlohmann::json::type_error`; `id` is 302 (conversion from the wrong
  kind of value) or 304 (`at(key)` on a value that is not an object). -/
  | json_type_error (id : Nat)
  /-- A `std::runtime_error` thrown by this file, with its message. -/
  | runtime_error (what : String)
  /-- The pattern engine refused to compile a pattern (`TK_UNWRAP_THROW`). -/
  | pattern_error (code : Nat)
  /-- A failed `assert`, which aborts the process. -/
  | assertion_failed
  /-- Failure `std::out_of_range` of `std::string::substr`. -/
  | substr_out_of_range
  deriving DecidableEq, Repr

/-- A `std::string` that is indexed or sliced: one `Char` per C++ `char`. -/
abbrev Text := List Char

/-- The modulus of `size_t` arithmetic (64-bit). -/
def SIZE_MOD : Nat := 2 ^ 64

/-- The call `s.substr(pos, count)`: throws when `pos > s.size()`, otherwise the
at most `count` chars from `pos` on. -/
def substr (s : Text) (pos count : Nat) : Except Error Text :=
  if pos > s.length then .error .substr_out_of_range
  else .ok ((s.drop pos).take count)

/-! ## JSON values (`nlohmann::json`) -/

/-- A JSON value.  An object lists its members in iteration order. -/
inductive Json where
  | null
  | boolean (b : Bool)
  | number (n : Int)
  | string (s : String)
  | array (xs : List Json)
  | object (kvs : List (String × Json))

namespace Json

/-- The call `j.at(key)` of a const value: the member of an object, `out_of_range`
when the object has no such member, `type_error` 304 on anything else. -/
def at_key (j : Json) (key : String) : Except Error Json :=
  match j with
  | object kvs =>
    match kvs.lookup key with
    | some v => .ok v
    | none => .error (.json_out_of_range key)
  | _ => .error (.json_type_error 304)

/-- Conversion to `std::string`: `type_error` 302 unless the value is a string. -/
def get_string : Json → Except Error String
  | string s => .ok s
  | _ => .error (.json_type_error 302)

/-- Conversion to `bool`: `type_error` 302 unless the value is a boolean. -/
def get_bool : Json → Except Error Bool
  | boolean b => .ok b
  | _ => .error (.json_type_error 302)

/-- What a range-`for` over the value visits: the elements of an array, the
member values of an object, nothing for `null`, the value itself otherwise. -/
def items : Json → List Json
  | array xs => xs
  | object kvs => kvs.map Prod.snd
  | null => []
  | j => [j]

end Json

/-! ## The pattern engine -/

/-- One match of `IRegex::find_all`: `start` and `end` are `size_t` offsets. -/
structure Match where
  start : Nat
  end_ : Nat
  deriving DecidableEq, Repr

/-- A compiled matcher (`IRegex`), seen through `find_all`. -/
structure IRegex where
  find_all : Text → List Match

/-- The collaborators of this file and the build mode. -/
structure Env where
  /-- Whether `assert` is compiled out. -/
  NDEBUG : Bool
  /-- The engine call `create_regex(pattern)`: a matcher, or an engine error code. -/
  create_regex : String → Except Nat IRegex
  /-- The engine call `unicode_regex_split(text, patterns)`. -/
  unicode_regex_split : Text → List String → List Text

/-- The macro `TK_UNWRAP_THROW`: the value of a successful result, a throw otherwise.
Modelled from the spec: the macro is defined outside this file; the spec calls
the failure `PatternError`. -/
def TK_UNWRAP_THROW {α : Type} (r : Except Nat α) : Except Error α :=
  match r with
  | .ok v => .ok v
  | .error code => .error (.pattern_error code)

/-! ## Splitting strategies -/

/-- A built strategy: the dynamic type of a `PreTokenizer::Ptr` with its members. -/
inductive PreTokenizer where
  /-- Class `RegexPreTokenizer`; `regex_` is a `unique_ptr` and may be null. -/
  | Regex (regex_ : Option IRegex)
  /-- Class `DigitsPreTokenizer`. -/
  | Digits (individual_digits : Bool)
  /-- Class `ByteLevelPreTokenizer`. -/
  | ByteLevel (pattern_ : String) (add_prefix_space_ : Bool)
  /-- Class `SequencePreTokenizer`. -/
  | Sequence (pre_tokenizers_ : List PreTokenizer)

/-- The virtual method `pre_tokenize` of some strategy, as a function. -/
abbrev Splitter := Text → Except Error (List Text)

namespace RegexPreTokenizer

/-- Source `RegexPreTokenizer::create_regex_`: the assertion, then the engine. -/
def create_regex_ (env : Env) (pattern : String) : Except Error IRegex :=
  if !env.NDEBUG && pattern.isEmpty then .error .assertion_failed
  else TK_UNWRAP_THROW (env.create_regex pattern)

/-- Modelled from the spec: the constructor `RegexPreTokenizer(pattern)` is
declared in the header, which is not part of the sources; it compiles the
pattern with `create_regex_` and fails when that fails. -/
def new (env : Env) (pattern : String) : Except Error PreTokenizer :=
  match create_regex_ env pattern with
  | .ok re => .ok (.Regex (some re))
  | .error e => .error e

/-- The loop of `RegexPreTokenizer::pre_tokenize` over the matches, with the
`results` pushed so far. -/
def push_matches (input : Text) : List Match → List Text → Except Error (List Text)
  | [], results => .ok results
  | m :: rest, results =>
    match substr input m.start ((m.end_ + SIZE_MOD - m.start) % SIZE_MOD) with
    | .ok piece => push_matches input rest (results ++ [piece])
    | .error e => .error e

/-- Source `RegexPreTokenizer::pre_tokenize`. -/
def pre_tokenize (regex_ : Option IRegex) (input : Text) : Except Error (List Text) :=
  match regex_ with
  | none => .ok []
  | some re => push_matches input (re.find_all input) []

end RegexPreTokenizer

namespace DigitsPreTokenizer

/-- Modelled from the spec: the default of the constructor argument
`individual_digits`, declared in the header. -/
def default_individual_digits : Bool := false

/-- Modelled from the spec: class `DigitsPreTokenizer` is defined in the header.
Maximal runs of digits are one piece each, or one piece per digit when
`individual_digits` is set; maximal runs of other chars are one piece each. -/
def pre_tokenize (individual_digits : Bool) : Text → List Text
  | [] => []
  | c :: cs =>
    match pre_tokenize individual_digits cs with
    | (d :: ds) :: rest =>
      if c.isDigit = d.isDigit ∧ ¬ (individual_digits = true ∧ c.isDigit = true) then
        (c :: d :: ds) :: rest
      else [c] :: (d :: ds) :: rest
    | rest => [c] :: rest

end DigitsPreTokenizer

namespace ByteLevelPreTokenizer

/-- The constant `GPT2_EXPR`: the standard GPT2 regex. -/
def GPT2_EXPR : String :=
  "\x27s|\x27t|\x27re|\x27ve|\x27m|\x27ll|\x27d| ?\\p\x7bL\x7d+| ?\\p\x7bN\x7d+| ?[^\\s\\p\x7bL\x7d\\p\x7bN\x7d]+|\\s+(?!\\S)|\\s+"

/-- Modelled from the spec: the default of the constructor argument
`add_prefix_space`, declared in the header. -/
def default_add_prefix_space : Bool := false

/-- Modelled from the spec: the default of the constructor argument `pattern`,
declared in the header; the empty string selects `GPT2_EXPR`. -/
def default_pattern : String := ""

/-- Source `ByteLevelPreTokenizer::ByteLevelPreTokenizer(bool, const std::string&)`. -/
def new (add_prefix_space : Bool) (pattern : String) : PreTokenizer :=
  .ByteLevel (if pattern.isEmpty then GPT2_EXPR else pattern) add_prefix_space

/-- The copy `formatted_input` after the optional insertion of a space. -/
def formatted_input (add_prefix_space_ : Bool) (input : Text) : Text :=
  if add_prefix_space_ && !input.isEmpty && input.head? != some ' ' then
    ' ' :: input
  else input

/-- Source `ByteLevelPreTokenizer::pre_tokenize`. -/
def pre_tokenize (env : Env) (pattern_ : String) (add_prefix_space_ : Bool)
    (input : Text) : List Text :=
  env.unicode_regex_split (formatted_input add_prefix_space_ input) [pattern_]

end ByteLevelPreTokenizer

namespace SequencePreTokenizer

/-- The two inner loops of `SequencePreTokenizer::pre_tokenize`: every subpiece
that `pre_tokenizer` gives for each of `pieces` is pushed onto `new_pieces`. -/
def refine (pre_tokenizer : Splitter) : List Text → List Text → Except Error (List Text)
  | [], new_pieces => .ok new_pieces
  | piece :: rest, new_pieces =>
    match pre_tokenizer piece with
    | .ok subpieces => refine pre_tokenizer rest (new_pieces ++ subpieces)
    | .error e => .error e

/-- The outer loop of `SequencePreTokenizer::pre_tokenize` over the children. -/
def run : List Splitter → List Text → Except Error (List Text)
  | [], pieces => .ok pieces
  | pre_tokenizer :: rest, pieces =>
    match refine pre_tokenizer pieces [] with
    | .ok new_pieces => run rest new_pieces
    | .error e => .error e

/-- Source `SequencePreTokenizer::pre_tokenize`, the children seen through
their virtual `pre_tokenize`. -/
def pre_tokenize (pre_tokenizers_ : List Splitter) (input : Text) : Except Error (List Text) :=
  run pre_tokenizers_ [input]

end SequencePreTokenizer

mutual
/-- Virtual dispatch of `pre_tokenize` on the dynamic type of the strategy. -/
def PreTokenizer.pre_tokenize (env : Env) : PreTokenizer → Splitter
  | .Regex regex_ => RegexPreTokenizer.pre_tokenize regex_
  | .Digits individual_digits =>
    fun input => .ok (DigitsPreTokenizer.pre_tokenize individual_digits input)
  | .ByteLevel pattern_ add_prefix_space_ =>
    fun input => .ok (ByteLevelPreTokenizer.pre_tokenize env pattern_ add_prefix_space_ input)
  | .Sequence pre_tokenizers_ =>
    SequencePreTokenizer.pre_tokenize (PreTokenizer.splitters env pre_tokenizers_)
/-- The virtual `pre_tokenize` of each child of a sequence, in order. -/
def PreTokenizer.splitters (env : Env) : List PreTokenizer → List Splitter
  | [] => []
  | t :: ts => PreTokenizer.pre_tokenize env t :: PreTokenizer.splitters env ts
end

/-! ## Configuration and factory -/

/-- Class `PreTokenizerConfig`: the type tag and the optional members. -/
structure PreTokenizerConfig where
  type : String
  pattern : Option String
  individual_digits : Option Bool
  add_prefix_space : Option Bool
  pretokenizers : Option (List PreTokenizerConfig)

namespace PreTokenizerConfig

/-- Source `PreTokenizerConfig::PreTokenizerConfig(std::string type)`: every
optional member starts unset. -/
def init (type : String) : PreTokenizerConfig :=
  { type := type, pattern := none, individual_digits := none,
    add_prefix_space := none, pretokenizers := none }

/-- The message of the error thrown for a `Split` without pattern. -/
def MISSING_PATTERN : String := "Missing pattern for PreTokenizer of type Split"

/-- The message of the error thrown for a `Sequence` without children. -/
def MISSING_PRETOKENIZERS : String :=
  "Missing pretokenizers for PreTokenizer of type Sequence"

/-- The message of the error thrown for an unknown type tag. -/
def UNSUPPORTED (type : String) : String := "Unsupported PreTokenizer type: " ++ type

/-- A member found by `at` is smaller than the object holding it. -/
theorem sizeOf_lt_of_at_key {j v : Json} {key : String} (h : j.at_key key = .ok v) :
    sizeOf v < sizeOf j := by
  cases j with
  | object kvs =>
    simp only [Json.at_key] at h
    have key_lemma : ∀ (l : List (String × Json)) (w : Json),
        l.lookup key = some w → sizeOf w < sizeOf l := by
      intro l
      induction l with
      | nil => intro w hw; simp [List.lookup] at hw
      | cons hd tl ih =>
        intro w hw
        obtain ⟨k, x⟩ := hd
        simp only [List.lookup] at hw
        split at hw
        · cases hw
          simp only [List.cons.sizeOf_spec, Prod.mk.sizeOf_spec]
          omega
        · have := ih w hw
          simp only [List.cons.sizeOf_spec]
          omega
    cases hl : kvs.lookup key with
    | none => simp [hl] at h
    | some w =>
      simp only [hl, Except.ok.injEq] at h
      subst h
      have := key_lemma kvs w hl
      simp only [Json.object.sizeOf_spec]
      omega
  | null => simp [Json.at_key] at h
  | boolean b => simp [Json.at_key] at h
  | number n => simp [Json.at_key] at h
  | string s => simp [Json.at_key] at h
  | array xs => simp [Json.at_key] at h

/-- A value visited by a range-`for` is no larger than the value iterated. -/
theorem sizeOf_le_of_mem_items {j x : Json} (h : x ∈ j.items) : sizeOf x ≤ sizeOf j := by
  cases j with
  | array xs =>
    simp only [Json.items] at h
    have := List.sizeOf_lt_of_mem h
    simp only [Json.array.sizeOf_spec]
    omega
  | object kvs =>
    simp only [Json.items, List.mem_map] at h
    obtain ⟨⟨k, w⟩, hmem, rfl⟩ := h
    have := List.sizeOf_lt_of_mem hmem
    simp only [Prod.mk.sizeOf_spec] at this
    simp only [Json.object.sizeOf_spec]
    omega
  | null => simp [Json.items] at h
  | boolean b => simp [Json.items] at h; subst h; exact Nat.le_refl _
  | number n => simp [Json.items] at h; subst h; exact Nat.le_refl _
  | string s => simp [Json.items] at h; subst h; exact Nat.le_refl _

/-- A loop that pushes `f entry` onto a vector for each entry in order; the
first throw ends it. -/
def push_each {α β : Type} (f : α → Except Error β) : List α → Except Error (List β)
  | [] => .ok []
  | entry :: rest =>
    match f entry with
    | .ok v =>
      match push_each f rest with
      | .ok vs => .ok (v :: vs)
      | .error e => .error e
    | .error e => .error e

/-- A `try` block whose only handler is an empty `catch (json::out_of_range&)`:
the assignment happens unless the right-hand side throws; `out_of_range` leaves
the configuration as it was, any other exception propagates. -/
def try_assign {α : Type} (self : PreTokenizerConfig) (value : Except Error α)
    (assign : PreTokenizerConfig → α → PreTokenizerConfig) : Except Error PreTokenizerConfig :=
  match value with
  | .ok v => .ok (assign self v)
  | .error (.json_out_of_range _) => .ok self
  | .error e => .error e

/-- Source `PreTokenizerConfig::parse_json`; the result is `*this` after the
call.  A call that throws gives the exception only: what it had assigned to
`*this` before the throw is not part of the result. -/
def parse_json (self : PreTokenizerConfig) (json_config : Json) :
    Except Error PreTokenizerConfig :=
  match json_config.at_key "type" >>= Json.get_string with
  | .error e => .error e
  | .ok type =>
    let self := { self with type := type }
    if type = "Split" then
      try_assign self
        (json_config.at_key "pattern" >>= (Json.at_key · "Regex") >>= Json.get_string)
        (fun c p => { c with pattern := some p })
    else if type = "Digits" then
      try_assign self (json_config.at_key "individual_digits" >>= Json.get_bool)
        (fun c d => { c with individual_digits := some d })
    else if type = "ByteLevel" then
      try_assign self (json_config.at_key "add_prefix_space" >>= Json.get_bool)
        (fun c a => { c with add_prefix_space := some a })
    else if type = "Sequence" then
      match h : json_config.at_key "pretokenizers" with
      | .error e => .error e
      | .ok entries =>
        match push_each (fun entry => parse_json (init "") entry.1) entries.items.attach with
        | .ok children => .ok { self with pretokenizers := some children }
        | .error e => .error e
    else .error (.runtime_error (UNSUPPORTED type))
termination_by sizeOf json_config
decreasing_by
  have h1 := sizeOf_lt_of_at_key h
  have h2 := sizeOf_le_of_mem_items entry.2
  omega

/-- The children of a `Sequence` description: each entry parsed into a fresh
configuration, in order. -/
def parse_children (entries : Json) : Except Error (List PreTokenizerConfig) :=
  push_each (parse_json (init "")) entries.items

mutual
/-- Source `PreTokenizerConfig::create`. -/
def create (env : Env) : PreTokenizerConfig → Except Error PreTokenizer
  | ⟨type, pattern, individual_digits, add_prefix_space, pretokenizers⟩ =>
    if type = "Split" then
      match pattern with
      | none => .error (.runtime_error MISSING_PATTERN)
      | some p => RegexPreTokenizer.new env p
    else if type = "Digits" then
      match individual_digits with
      | some d => .ok (.Digits d)
      | none => .ok (.Digits DigitsPreTokenizer.default_individual_digits)
    else if type = "ByteLevel" then
      match add_prefix_space with
      | some a =>
        match pattern with
        | some p => .ok (ByteLevelPreTokenizer.new a p)
        | none => .ok (ByteLevelPreTokenizer.new a ByteLevelPreTokenizer.default_pattern)
      | none =>
        match pattern with
        | some p =>
          .ok (ByteLevelPreTokenizer.new ByteLevelPreTokenizer.default_add_prefix_space p)
        | none =>
          .ok (ByteLevelPreTokenizer.new ByteLevelPreTokenizer.default_add_prefix_space
            ByteLevelPreTokenizer.default_pattern)
    else if type = "Sequence" then
      match pretokenizers with
      | none => .error (.runtime_error MISSING_PRETOKENIZERS)
      | some [] => .error (.runtime_error MISSING_PRETOKENIZERS)
      | some (c :: cs) =>
        match create_each env (c :: cs) with
        | .ok pretoks => .ok (.Sequence pretoks)
        | .error e => .error e
    else .error (.runtime_error (UNSUPPORTED type))
/-- The `std::transform` of `create`: each child is built in order and pushed
onto `pretoks`; the first throw ends the loop. -/
def create_each (env : Env) : List PreTokenizerConfig → Except Error (List PreTokenizer)
  | [] => .ok []
  | cfg :: rest =>
    match create env cfg with
    | .ok t =>
      match create_each env rest with
      | .ok ts => .ok (t :: ts)
      | .error e => .error e
    | .error e => .error e
end

end PreTokenizerConfig

/-! ## Examples of collaborators -/

/-- An environment for examples: assertions on, an engine that compiles every
pattern to a matcher without matches and splits no text. -/
def example_env : Env :=
  { NDEBUG := false
    create_regex := fun _ => .ok ⟨fun _ => []⟩
    unicode_regex_split := fun text _ => [text] }

/-! ## Auxiliary definitions -/

/-- Whether an error is one of the two exceptions of the JSON library. -/
def Error.is_json : Error → Bool
  | .json_out_of_range _ => true
  | .json_type_error _ => true
  | _ => false

/-- The four type strings that `parse_json` and `create` know. -/
def KINDS : List String := ["Split", "Digits", "ByteLevel", "Sequence"]

/-- An environment whose engine compiles no pattern: `create_regex` fails with
code 1 on every pattern. -/
def failing_env : Env :=
  { NDEBUG := false
    create_regex := fun _ => .error 1
    unicode_regex_split := fun text _ => [text] }

/-- The pieces that a strategy under construction gives for `x`: the failure of
the construction, or what `pre_tokenize` of the built strategy returns. -/
def built_pre_tokenize (env : Env) (built : Except Error PreTokenizer) (x : Text) :
    Except Error (List Text) :=
  match built with
  | .ok t => t.pre_tokenize env x
  | .error e => .error e

mutual
/-- Whether the type of a configuration, and of every configuration nested
anywhere in its children, is one of the four known ones. -/
def kinds_known : PreTokenizerConfig → Bool
  | ⟨type, _, _, _, pretokenizers⟩ =>
    decide (type ∈ KINDS) &&
      match pretokenizers with
      | none => true
      | some children => all_kinds_known children
/-- Whether `kinds_known` holds of every configuration of a list. -/
def all_kinds_known : List PreTokenizerConfig → Bool
  | [] => true
  | cfg :: rest => kinds_known cfg && all_kinds_known rest
end

/-! ## The default pattern in the engine -/

/-- The character classes of the engine that `GPT2_EXPR` names: `\p{L}`,
`\p{N}` and `\s`. -/
structure Classes where
  letter : Char → Bool
  number : Char → Bool
  space : Char → Bool

namespace Engine

/-- The apostrophe that starts a contraction. -/
def APOSTROPHE : Char := Char.ofNat 39

/-- The contractions of `GPT2_EXPR`, in the order of the alternation. -/
def CONTRACTIONS : List Text :=
  [[APOSTROPHE, 's'], [APOSTROPHE, 't'], [APOSTROPHE, 'r', 'e'], [APOSTROPHE, 'v', 'e'],
    [APOSTROPHE, 'm'], [APOSTROPHE, 'l', 'l'], [APOSTROPHE, 'd']]

/-- The length of the longest prefix of the text whose chars are all in `p`:
what a greedy `p+` consumes. -/
def run_length (p : Char → Bool) : Text → Nat
  | [] => 0
  | c :: cs => if p c then run_length p cs + 1 else 0

/-- Modelled from the spec: the contractions alternative; the length of the
first contraction that the text starts with. -/
def contraction (t : Text) : Option Nat :=
  (CONTRACTIONS.find? (fun pre => pre.isPrefixOf t)).map List.length

/-- Modelled from the spec: an optionally space-prefixed run of chars of `p`
(` ?p+`): with the space when a run follows it, without it otherwise. -/
def spaced_run (p : Char → Bool) (t : Text) : Option Nat :=
  match t with
  | ' ' :: rest =>
    if 0 < run_length p rest then some (run_length p rest + 1)
    else if 0 < run_length p t then some (run_length p t)
    else none
  | _ => if 0 < run_length p t then some (run_length p t) else none

/-- Modelled from the spec: a whitespace run not immediately followed by a
non-whitespace char (`\s+(?!\S)`): the whole run at the end of the text,
otherwise the run without its last char when that leaves something. -/
def space_run_before_space (cls : Classes) (t : Text) : Option Nat :=
  let k := run_length cls.space t
  if k = 0 then none
  else if k = t.length then some k
  else if 2 ≤ k then some (k - 1)
  else none

/-- Modelled from the spec: any remaining whitespace run (`\s+`). -/
def space_run (cls : Classes) (t : Text) : Option Nat :=
  if 0 < run_length cls.space t then some (run_length cls.space t) else none

/-- Modelled from the spec: the canonical default pattern, matched at the start
of the text. The alternatives are tried in the order of the spec: contractions,
letters, numbers, chars that are neither whitespace nor letter nor number,
whitespace before whitespace or the end, whitespace. The result is the
length of the match of the first alternative that matches. -/
def gpt2_match (cls : Classes) (t : Text) : Option Nat :=
  match contraction t with
  | some n => some n
  | none =>
    match spaced_run cls.letter t with
    | some n => some n
    | none =>
      match spaced_run cls.number t with
      | some n => some n
      | none =>
        match spaced_run (fun c => !cls.space c && !cls.letter c && !cls.number c) t with
        | some n => some n
        | none =>
          match space_run_before_space cls t with
          | some n => some n
          | none => space_run cls t

/-- The rounds of `exhaustive_split`: each round emits the match at the start
of the rest of the text and goes on after it, or steps over one char when no
non-empty match starts there. -/
def exhaustive_split_rounds (pattern : Text → Option Nat) : Nat → Text → List Text
  | 0, _ => []
  | _ + 1, [] => []
  | rounds + 1, c :: cs =>
    match pattern (c :: cs) with
    | some (n + 1) =>
      (c :: cs).take (n + 1) :: exhaustive_split_rounds pattern rounds ((c :: cs).drop (n + 1))
    | _ => exhaustive_split_rounds pattern rounds cs

/-- Modelled from the spec: the exhaustive split of the engine, which is not
part of the sources. The matches of the pattern are found left to right and are
the pieces; a char at which no match starts is in no piece. Every round uses at
least one char, so as many rounds as the text has chars are all the rounds. -/
def exhaustive_split (pattern : Text → Option Nat) (text : Text) : List Text :=
  exhaustive_split_rounds pattern text.length text

/-- The ASCII classes: letters, digits and white space. -/
def ascii : Classes :=
  { letter := Char.isAlpha, number := Char.isDigit, space := Char.isWhitespace }

/-- An environment whose engine splits every text with the default pattern over
the ASCII classes. -/
def ascii_env : Env :=
  { NDEBUG := false
    create_regex := fun _ => .ok ⟨fun _ => []⟩
    unicode_regex_split := fun text _ => exhaustive_split (gpt2_match ascii) text }

end Engine

namespace PreTokenizerConfig

/-! ## Unfolding `parse_json` -/

/-- The loop `push_each` does not look at the evidence attached to the entries. -/
theorem push_each_val {α β : Type} {P : α → Prop} (f : α → Except Error β)
    (l : List { x // P x }) :
    push_each (fun entry => f entry.1) l = push_each f (l.map Subtype.val) := by
  induction l with
  | nil => rfl
  | cons hd tl ih => simp only [push_each, List.map_cons, ih]

/-- The body of `parse_json`, one level unfolded. -/
theorem parse_json_unfold (self : PreTokenizerConfig) (json_config : Json) :
    parse_json self json_config =
      match json_config.at_key "type" >>= Json.get_string with
      | .error e => .error e
      | .ok type =>
        if type = "Split" then
          try_assign { self with type := type }
            (json_config.at_key "pattern" >>= (Json.at_key · "Regex") >>= Json.get_string)
            (fun c p => { c with pattern := some p })
        else if type = "Digits" then
          try_assign { self with type := type }
            (json_config.at_key "individual_digits" >>= Json.get_bool)
            (fun c d => { c with individual_digits := some d })
        else if type = "ByteLevel" then
          try_assign { self with type := type }
            (json_config.at_key "add_prefix_space" >>= Json.get_bool)
            (fun c a => { c with add_prefix_space := some a })
        else if type = "Sequence" then
          match json_config.at_key "pretokenizers" with
          | .error e => .error e
          | .ok entries =>
            match parse_children entries with
            | .ok children => .ok { self with type := type, pretokenizers := some children }
            | .error e => .error e
        else .error (.runtime_error (UNSUPPORTED type)) := by
  rw [parse_json]
  cases h0 : json_config.at_key "type" >>= Json.get_string with
  | error e => rfl
  | ok type =>
    simp only []
    split
    · rfl
    · split
      · rfl
      · split
        · rfl
        · split
          · have key : ∀ entries : Json, parse_children entries =
                push_each (fun entry => parse_json (init "") entry.1) entries.items.attach := by
              intro entries
              rw [push_each_val, List.attach_map_subtype_val, parse_children]
            split
            · next e h1 => simp only [h1]
            · next entries h1 => simp only [h1, key]
          · rfl

end PreTokenizerConfig

/-! ## Sequence composition -/

/-- The inner loops of a sequence step: the pieces given by `f` for each of
`pieces`, flattened in order after what was already pushed. -/
theorem SequencePreTokenizer.refine_eq (f : Splitter) (pieces new_pieces : List Text) :
    SequencePreTokenizer.refine f pieces new_pieces =
      (pieces.mapM f).map (fun subs => new_pieces ++ subs.flatten) := by
  induction pieces generalizing new_pieces with
  | nil =>
    rw [SequencePreTokenizer.refine, List.mapM_nil]
    simp [Except.map, pure, Except.pure]
  | cons p rest ih =>
    simp only [SequencePreTokenizer.refine, List.mapM_cons]
    cases hp : f p with
    | error e => simp [Except.map, bind, Except.bind]
    | ok subs =>
      simp only [ih]
      cases hr : rest.mapM f with
      | error e => simp [Except.map, bind, Except.bind]
      | ok more => simp [Except.map, bind, Except.bind, pure, Except.pure]

/-- C1. Sequence composition law: a sequence of two children `A`, `B` gives, on
every input, the pieces of `B` on each piece of `A`, concatenated in the order
of the pieces of `A`; the first throw, of `A` or of `B` on a piece, in that
order, is the throw of the sequence. -/
theorem sequence_composition_law (env : Env) (A B : PreTokenizer) (x : Text) :
    (PreTokenizer.Sequence [A, B]).pre_tokenize env x =
      (A.pre_tokenize env x >>= fun pieces =>
        (pieces.mapM (B.pre_tokenize env)).map List.flatten) := by
  simp only [PreTokenizer.pre_tokenize, PreTokenizer.splitters,
    SequencePreTokenizer.pre_tokenize, SequencePreTokenizer.run,
    SequencePreTokenizer.refine_eq, List.mapM_cons, List.mapM_nil]
  cases hA : A.pre_tokenize env x with
  | error e => simp [Except.map, bind, Except.bind]
  | ok pieces =>
    simp only [Except.map, bind, Except.bind, pure, Except.pure, List.flatten, List.nil_append,
      List.append_nil]
    cases hB : pieces.mapM (B.pre_tokenize env) with
    | error e => rfl
    | ok subs => rfl

/-! ## Byte-level and pattern extraction -/

/-- C2. A byte-level strategy constructed with `add_prefix_space` and `pattern`
gives on every input the exhaustive split by the engine of the input, with one
space put in front exactly when the flag is set, the input is not empty and does
not start with a space, under `GPT2_EXPR` when the given pattern is empty and
under the given pattern otherwise. -/
theorem byte_level_pre_tokenize_eq (env : Env) (add_prefix_space : Bool) (pattern : String)
    (x : Text) :
    (ByteLevelPreTokenizer.new add_prefix_space pattern).pre_tokenize env x =
      .ok (env.unicode_regex_split
        (if add_prefix_space = true ∧ x ≠ [] ∧ x.head? ≠ some ' ' then ' ' :: x else x)
        [if pattern = "" then ByteLevelPreTokenizer.GPT2_EXPR else pattern]) := by
  have hp : (if pattern.isEmpty = true then ByteLevelPreTokenizer.GPT2_EXPR else pattern) =
      (if pattern = "" then ByteLevelPreTokenizer.GPT2_EXPR else pattern) := by
    by_cases h : pattern = ""
    · have : pattern.isEmpty = true := (String.isEmpty_iff pattern).2 h
      rw [if_pos this, if_pos h]
    · have : ¬ pattern.isEmpty = true := fun hi => h ((String.isEmpty_iff pattern).1 hi)
      rw [if_neg this, if_neg h]
  simp only [ByteLevelPreTokenizer.new, PreTokenizer.pre_tokenize,
    ByteLevelPreTokenizer.pre_tokenize, ByteLevelPreTokenizer.formatted_input, hp]
  congr 2
  cases add_prefix_space <;> cases x <;> simp

/-- The loop over the matches, when every match lies inside the input: each
match pushes the chars from its start up to its end. -/
theorem RegexPreTokenizer.push_matches_in_bounds (x : Text) (hx : x.length < SIZE_MOD)
    (ms : List Match) (results : List Text)
    (hm : ∀ m ∈ ms, m.start ≤ m.end_ ∧ m.end_ ≤ x.length) :
    RegexPreTokenizer.push_matches x ms results =
      .ok (results ++ ms.map (fun m => (x.drop m.start).take (m.end_ - m.start))) := by
  induction ms generalizing results with
  | nil => simp [RegexPreTokenizer.push_matches]
  | cons m rest ih =>
    have hb := hm m (List.mem_cons_self m rest)
    have hlen : (m.end_ + SIZE_MOD - m.start) % SIZE_MOD = m.end_ - m.start := by
      have h1 : m.end_ + SIZE_MOD - m.start = (m.end_ - m.start) + SIZE_MOD := by omega
      rw [h1, Nat.add_mod_right]
      exact Nat.mod_eq_of_lt (by omega)
    have hpos : ¬ m.start > x.length := by omega
    simp only [RegexPreTokenizer.push_matches, substr, hlen, hpos, if_false]
    rw [ih _ (fun m' hm' => hm m' (List.mem_cons_of_mem m hm'))]
    simp

/-- C3. Pattern extraction: when the matches reported by `find_all` lie inside
the input, `pre_tokenize` returns one piece per match, in the order of the
matches, each the chars of the input from the start of its match up to its end,
and nothing else; an instance without compiled matcher returns no piece. -/
theorem regex_pre_tokenize_extracts (regex_ : Option IRegex) (x : Text)
    (hx : x.length < SIZE_MOD)
    (hm : ∀ re, regex_ = some re →
      ∀ m ∈ re.find_all x, m.start ≤ m.end_ ∧ m.end_ ≤ x.length) :
    RegexPreTokenizer.pre_tokenize regex_ x =
      .ok (match regex_ with
        | none => []
        | some re => (re.find_all x).map (fun m => (x.drop m.start).take (m.end_ - m.start))) := by
  cases regex_ with
  | none => rfl
  | some re =>
    simp only [RegexPreTokenizer.pre_tokenize]
    rw [RegexPreTokenizer.push_matches_in_bounds x hx _ _ (hm re rfl)]
    simp

/-- The witness of C3: with matches (2,4) and (6,8) on "ab12cd34" the pieces are
"12" and "34". -/
theorem regex_pre_tokenize_extracts_witness :
    RegexPreTokenizer.pre_tokenize (some ⟨fun _ => [⟨2, 4⟩, ⟨6, 8⟩]⟩)
      ['a', 'b', '1', '2', 'c', 'd', '3', '4'] = .ok [['1', '2'], ['3', '4']] := by
  have h := regex_pre_tokenize_extracts (some ⟨fun _ => [⟨2, 4⟩, ⟨6, 8⟩]⟩)
    ['a', 'b', '1', '2', 'c', 'd', '3', '4'] (by simp [SIZE_MOD])
    (by
      intro re hre m hmem
      cases hre
      simp only [List.mem_cons, List.mem_singleton, List.not_mem_nil, or_false] at hmem
      rcases hmem with rfl | rfl <;> simp)
  simpa using h

/-! ## Building: validation, order and failure -/

namespace PreTokenizerConfig

/-- The children loop succeeds exactly when every child builds, and then gives
the built children in the order of the configurations. -/
theorem create_each_ok_iff (env : Env) (cs : List PreTokenizerConfig)
    (ts : List PreTokenizer) :
    create_each env cs = .ok ts ↔ List.Forall₂ (fun c t => create env c = .ok t) cs ts := by
  induction cs generalizing ts with
  | nil =>
    constructor
    · intro h
      simp only [create_each, Except.ok.injEq] at h
      subst h
      exact List.Forall₂.nil
    · intro h
      cases h
      rfl
  | cons c rest ih =>
    constructor
    · intro h
      simp only [create_each] at h
      cases hc : create env c with
      | error e => simp [hc] at h
      | ok t =>
        cases hr : create_each env rest with
        | error e => simp [hc, hr] at h
        | ok ts' =>
          simp only [hc, hr, Except.ok.injEq] at h
          subst h
          exact List.Forall₂.cons hc ((ih ts').1 hr)
    · intro h
      cases h with
      | cons hc hrest =>
        simp only [create_each, hc, (ih _).2 hrest]

/-- The children loop throws what the first child that fails to build throws. -/
theorem create_each_error (env : Env) (cs : List PreTokenizerConfig) (i : Nat) (e : Error)
    (hi : i < cs.length) (hfail : create env (cs.get ⟨i, hi⟩) = .error e)
    (hbefore : ∀ j (hj : j < cs.length), j < i → ∃ t, create env (cs.get ⟨j, hj⟩) = .ok t) :
    create_each env cs = .error e := by
  induction cs generalizing i with
  | nil => simp at hi
  | cons c rest ih =>
    cases i with
    | zero =>
      simp only [List.get_eq_getElem, List.getElem_cons_zero] at hfail
      simp only [create_each, hfail]
    | succ k =>
      obtain ⟨t, ht⟩ := hbefore 0 (Nat.zero_lt_succ _) (Nat.zero_lt_succ _)
      simp only [List.get_eq_getElem, List.getElem_cons_zero] at ht
      have hk : k < rest.length := by simpa using hi
      have hrest := ih k hk (by simpa using hfail)
        (fun j hj hjk => by
          have := hbefore (j + 1) (by simpa using hj) (by omega)
          simpa using this)
      simp only [create_each, ht, hrest]

/-- The `Sequence` branch of `create` on a non-empty children list. -/
theorem create_sequence (env : Env) (cfg : PreTokenizerConfig) (cs : List PreTokenizerConfig)
    (hk : cfg.type = "Sequence") (hcs : cfg.pretokenizers = some cs) (hne : cs ≠ []) :
    create env cfg =
      match create_each env cs with
      | .ok pretoks => .ok (.Sequence pretoks)
      | .error e => .error e := by
  obtain ⟨type, pattern, individual_digits, add_prefix_space, pretokenizers⟩ := cfg
  simp only at hk hcs
  subst hk hcs
  cases cs with
  | nil => exact absurd rfl hne
  | cons c rest => simp [create]

end PreTokenizerConfig

open PreTokenizerConfig

/-- C4. A `Split` configuration without pattern fails to build with the
missing-pattern error; one whose pattern is the empty string does not: it passes
the check of `create` and reaches the assertion of `create_regex_`, which aborts,
or with `NDEBUG` hands the empty pattern to the engine. -/
theorem create_split_empty_pattern (env : Env) (individual_digits add_prefix_space : Option Bool)
    (pretokenizers : Option (List PreTokenizerConfig)) :
    create env ⟨"Split", none, individual_digits, add_prefix_space, pretokenizers⟩ =
        .error (.runtime_error MISSING_PATTERN) ∧
    create env ⟨"Split", some "", individual_digits, add_prefix_space, pretokenizers⟩ =
        (if env.NDEBUG = true then
          match env.create_regex "" with
          | .ok re => .ok (.Regex (some re))
          | .error code => .error (.pattern_error code)
        else .error .assertion_failed) ∧
    create env ⟨"Split", some "", individual_digits, add_prefix_space, pretokenizers⟩ ≠
        .error (.runtime_error MISSING_PATTERN) := by
  have h2 : create env ⟨"Split", some "", individual_digits, add_prefix_space, pretokenizers⟩ =
      (if env.NDEBUG = true then
        match env.create_regex "" with
        | .ok re => .ok (.Regex (some re))
        | .error code => .error (.pattern_error code)
      else .error .assertion_failed) := by
    simp only [create, RegexPreTokenizer.new, RegexPreTokenizer.create_regex_, if_true]
    cases hn : env.NDEBUG with
    | false => simp [String.isEmpty]
    | true =>
      cases hc : env.create_regex "" with
      | ok re => simp [TK_UNWRAP_THROW]
      | error code => simp [TK_UNWRAP_THROW]
  refine ⟨by simp [create], h2, ?_⟩
  rw [h2]
  cases hn : env.NDEBUG with
  | false => simp
  | true =>
    cases hc : env.create_regex "" with
    | ok re => simp
    | error code => simp

/-- C5. A `Sequence` configuration whose children are absent or empty fails to
build with the missing-children error, and so builds no child; one whose
children list is not empty and whose children all build, builds: the result is a
sequence with one built child per configured child. -/
theorem create_sequence_validation (env : Env) (cfg : PreTokenizerConfig)
    (hk : cfg.type = "Sequence") :
    ((cfg.pretokenizers = none ∨ cfg.pretokenizers = some []) →
      create env cfg = .error (.runtime_error MISSING_PRETOKENIZERS)) ∧
    (∀ cs, cfg.pretokenizers = some cs → cs ≠ [] →
      (∀ c ∈ cs, ∃ t, create env c = .ok t) →
      ∃ ts, ts.length = cs.length ∧ create env cfg = .ok (.Sequence ts)) := by
  constructor
  · intro h
    obtain ⟨type, pattern, individual_digits, add_prefix_space, pretokenizers⟩ := cfg
    simp only at hk h
    subst hk
    rcases h with h | h <;> subst h <;> simp [create]
  · intro cs hcs hne hall
    rw [create_sequence env cfg cs hk hcs hne]
    have hex : ∃ ts, List.Forall₂ (fun c t => create env c = .ok t) cs ts := by
      clear hcs hne
      induction cs with
      | nil => exact ⟨[], List.Forall₂.nil⟩
      | cons c rest ih =>
        obtain ⟨t, ht⟩ := hall c (List.mem_cons_self c rest)
        obtain ⟨ts, hts⟩ := ih (fun c' hc' => hall c' (List.mem_cons_of_mem c hc'))
        exact ⟨t :: ts, List.Forall₂.cons ht hts⟩
    obtain ⟨ts, hts⟩ := hex
    refine ⟨ts, hts.length_eq.symm, ?_⟩
    rw [(create_each_ok_iff env cs ts).2 hts]

/-- The witness of C5: a sequence without children fails with the
missing-children error, a sequence of one `Digits` child builds. -/
theorem create_sequence_validation_witness :
    create example_env ⟨"Sequence", none, none, none, none⟩ =
        .error (.runtime_error MISSING_PRETOKENIZERS) ∧
    ∃ ts, ts.length = 1 ∧
      create example_env ⟨"Sequence", none, none, none, some [init "Digits"]⟩ =
        .ok (.Sequence ts) :=
  ⟨(create_sequence_validation example_env ⟨"Sequence", none, none, none, none⟩ rfl).1
      (Or.inl rfl),
    (create_sequence_validation example_env
      ⟨"Sequence", none, none, none, some [init "Digits"]⟩ rfl).2
      [init "Digits"] rfl (by simp)
      (by
        intro c hc
        simp only [List.mem_singleton] at hc
        subst hc
        exact ⟨.Digits DigitsPreTokenizer.default_individual_digits, by simp [create, init]⟩)⟩

/-! ## Parsing: the type tag and the optional members -/

theorem Json.at_key_error {j : Json} {key : String} {e : Error}
    (h : j.at_key key = .error e) : e.is_json = true := by
  cases j with
  | object kvs =>
    simp only [Json.at_key] at h
    cases hl : kvs.lookup key with
    | none => simp [hl] at h; subst h; rfl
    | some v => simp [hl] at h
  | null => simp [Json.at_key] at h; subst h; rfl
  | boolean b => simp [Json.at_key] at h; subst h; rfl
  | number n => simp [Json.at_key] at h; subst h; rfl
  | string s => simp [Json.at_key] at h; subst h; rfl
  | array xs => simp [Json.at_key] at h; subst h; rfl

theorem Json.get_string_error {j : Json} {e : Error}
    (h : j.get_string = .error e) : e.is_json = true := by
  cases j <;> simp [Json.get_string] at h <;> subst h <;> rfl

theorem Json.get_bool_error {j : Json} {e : Error}
    (h : j.get_bool = .error e) : e.is_json = true := by
  cases j <;> simp [Json.get_bool] at h <;> subst h <;> rfl

/-- A throw of `x >>= f` is a throw of `x` or of `f`. -/
theorem bind_error_is_json {α β : Type} {x : Except Error α} {f : α → Except Error β}
    (hx : ∀ e, x = .error e → e.is_json = true)
    (hf : ∀ a e, f a = .error e → e.is_json = true) :
    ∀ e, (x >>= f) = .error e → e.is_json = true := by
  intro e h
  cases x with
  | error e' =>
    simp only [bind, Except.bind, Except.error.injEq] at h
    subst h
    exact hx _ rfl
  | ok a => exact hf a e h

/-- A `try` block with its `catch` throws only what its right-hand side throws. -/
theorem PreTokenizerConfig.try_assign_error {α : Type} {self : PreTokenizerConfig}
    {value : Except Error α} {assign : PreTokenizerConfig → α → PreTokenizerConfig} {e : Error}
    (h : try_assign self value assign = .error e) : value = .error e := by
  cases value with
  | ok v => simp [try_assign] at h
  | error e' =>
    cases e' <;> simp [try_assign] at h <;> subst h <;> rfl

/-- The loop `push_each` throws what one of its entries throws. -/
theorem PreTokenizerConfig.push_each_error {α β : Type} {f : α → Except Error β} {l : List α}
    {e : Error} (h : push_each f l = .error e) : ∃ x ∈ l, f x = .error e := by
  induction l with
  | nil => simp [push_each] at h
  | cons hd tl ih =>
    simp only [push_each] at h
    cases hf : f hd with
    | error e' =>
      simp only [hf, Except.error.injEq] at h
      subst h
      exact ⟨hd, List.mem_cons_self hd tl, hf⟩
    | ok v =>
      cases ht : push_each f tl with
      | ok vs => simp [hf, ht] at h
      | error e' =>
        simp only [hf, ht, Except.error.injEq] at h
        subst h
        obtain ⟨x, hx, hxe⟩ := ih ht
        exact ⟨x, List.mem_cons_of_mem hd hx, hxe⟩

/-- The exceptions of the JSON library are not a `std::runtime_error`. -/
theorem Error.is_json_ne_runtime {e : Error} (h : e.is_json = true) (w : String) :
    e ≠ .runtime_error w := by
  intro he
  subst he
  simp [Error.is_json] at h

/-- What the right-hand sides of the three `try` blocks throw is an exception
of the JSON library. -/
theorem PreTokenizerConfig.member_reads_error (j : Json) (e : Error) :
    ((j.at_key "pattern" >>= (Json.at_key · "Regex") >>= Json.get_string) = .error e →
      e.is_json = true) ∧
    ((j.at_key "individual_digits" >>= Json.get_bool) = .error e → e.is_json = true) ∧
    ((j.at_key "add_prefix_space" >>= Json.get_bool) = .error e → e.is_json = true) := by
  refine ⟨?_, ?_, ?_⟩
  · exact bind_error_is_json
      (bind_error_is_json (fun _ h => Json.at_key_error h) (fun _ _ h => Json.at_key_error h))
      (fun _ _ h => Json.get_string_error h) e
  · exact bind_error_is_json (fun _ h => Json.at_key_error h)
      (fun _ _ h => Json.get_bool_error h) e
  · exact bind_error_is_json (fun _ h => Json.at_key_error h)
      (fun _ _ h => Json.get_bool_error h) e

/-- Every `std::runtime_error` of `parse_json` is the unsupported-type error of
a tag, of the description or of a description nested in it, that is not one of
the four known ones. -/
theorem PreTokenizerConfig.parse_json_runtime_error (j : Json) :
    ∀ (self : PreTokenizerConfig) (w : String),
      parse_json self j = .error (.runtime_error w) →
      ∃ tag, tag ∉ KINDS ∧ w = UNSUPPORTED tag := by
  suffices aux : ∀ n, ∀ j : Json, sizeOf j = n → ∀ (self : PreTokenizerConfig) (w : String),
      parse_json self j = .error (.runtime_error w) →
      ∃ tag, tag ∉ KINDS ∧ w = UNSUPPORTED tag from aux _ j rfl
  intro n
  induction n using Nat.strong_induction_on with
  | _ n ih =>
    intro j hn self w h
    rw [parse_json_unfold] at h
    cases ht : (j.at_key "type" >>= Json.get_string) with
    | error e =>
      simp only [ht, Except.error.injEq] at h
      have hj := bind_error_is_json (fun _ h => Json.at_key_error h)
        (fun _ _ h => Json.get_string_error h) e ht
      exact absurd h (Error.is_json_ne_runtime hj w)
    | ok type =>
      simp only [ht] at h
      have hm := member_reads_error j (.runtime_error w)
      split_ifs at h with h1 h2 h3 h4
      · exact absurd (hm.1 (try_assign_error h)) (by simp [Error.is_json])
      · exact absurd (hm.2.1 (try_assign_error h)) (by simp [Error.is_json])
      · exact absurd (hm.2.2 (try_assign_error h)) (by simp [Error.is_json])
      · cases hp : j.at_key "pretokenizers" with
        | error e =>
          simp only [hp, Except.error.injEq] at h
          exact absurd h (Error.is_json_ne_runtime (Json.at_key_error hp) w)
        | ok entries =>
          simp only [hp] at h
          cases hc : parse_children entries with
          | ok children => simp [hc] at h
          | error e =>
            simp only [hc, Except.error.injEq] at h
            subst h
            obtain ⟨x, hx, hxe⟩ := push_each_error hc
            have h1 := sizeOf_lt_of_at_key hp
            have h2 := sizeOf_le_of_mem_items hx
            exact ih (sizeOf x) (by omega) x rfl _ _ hxe
      · simp only [Except.error.injEq, Error.runtime_error.injEq] at h
        exact ⟨type, by simp [KINDS, h1, h2, h3, h4], h.symm⟩

/-- C6, as the code has it. For a description that is a JSON object,
`parse_json` fails with the `out_of_range` error of the key when `type` is
absent, with a `type_error` when the tag is not a string, and with the
unsupported-type error of the tag when the tag is a string other than the four
known ones. When the tag is one of the four, an unsupported-type error is only
ever that of a child entry of a `Sequence`, about a tag that is not one of the
four. A description that is not an object fails with a `type_error`. -/
theorem parse_json_kind_validation (self : PreTokenizerConfig) (kvs : List (String × Json)) :
    (kvs.lookup "type" = none →
      parse_json self (.object kvs) = .error (.json_out_of_range "type")) ∧
    (∀ v, kvs.lookup "type" = some v → (∀ s, v ≠ .string s) →
      parse_json self (.object kvs) = .error (.json_type_error 302)) ∧
    (∀ tag, kvs.lookup "type" = some (.string tag) → tag ∉ KINDS →
      parse_json self (.object kvs) = .error (.runtime_error (UNSUPPORTED tag))) ∧
    (∀ tag, kvs.lookup "type" = some (.string tag) → tag ∈ KINDS →
      ∀ w, parse_json self (.object kvs) = .error (.runtime_error w) →
        tag = "Sequence" ∧
        (∃ entries entry, kvs.lookup "pretokenizers" = some entries ∧ entry ∈ entries.items ∧
          parse_json (init "") entry = .error (.runtime_error w)) ∧
        ∃ t, t ∉ KINDS ∧ w = UNSUPPORTED t) ∧
    (∀ j : Json, (∀ l, j ≠ .object l) →
      parse_json self j = .error (.json_type_error 304)) := by
  refine ⟨?_, ?_, ?_, ?_, ?_⟩
  · intro h
    rw [parse_json_unfold]
    simp [Json.at_key, h, bind, Except.bind]
  · intro v h hv
    rw [parse_json_unfold]
    cases v with
    | string s => exact absurd rfl (hv s)
    | null => simp [Json.at_key, h, bind, Except.bind, Json.get_string]
    | boolean b => simp [Json.at_key, h, bind, Except.bind, Json.get_string]
    | number n => simp [Json.at_key, h, bind, Except.bind, Json.get_string]
    | array xs => simp [Json.at_key, h, bind, Except.bind, Json.get_string]
    | object l => simp [Json.at_key, h, bind, Except.bind, Json.get_string]
  · intro tag h hk
    rw [parse_json_unfold]
    simp only [KINDS, List.mem_cons, List.mem_singleton, List.not_mem_nil, or_false,
      not_or] at hk
    simp [Json.at_key, h, bind, Except.bind, Json.get_string, hk.1, hk.2.1, hk.2.2.1, hk.2.2.2]
  · intro tag h hk w hw
    have hglobal := parse_json_runtime_error (.object kvs) self w hw
    rw [parse_json_unfold] at hw
    have ht : ((Json.object kvs).at_key "type" >>= Json.get_string) = .ok tag := by
      simp [Json.at_key, h, bind, Except.bind, Json.get_string]
    simp only [ht] at hw
    have hm := member_reads_error (.object kvs) (.runtime_error w)
    split_ifs at hw with h1 h2 h3 h4
    · exact absurd (hm.1 (try_assign_error hw)) (by simp [Error.is_json])
    · exact absurd (hm.2.1 (try_assign_error hw)) (by simp [Error.is_json])
    · exact absurd (hm.2.2 (try_assign_error hw)) (by simp [Error.is_json])
    · refine ⟨h4, ?_, hglobal⟩
      cases hp : (Json.object kvs).at_key "pretokenizers" with
      | error e =>
        simp only [hp, Except.error.injEq] at hw
        exact absurd hw (Error.is_json_ne_runtime (Json.at_key_error hp) w)
      | ok entries =>
        simp only [hp] at hw
        cases hc : parse_children entries with
        | ok children => simp [hc] at hw
        | error e =>
          simp only [hc, Except.error.injEq] at hw
          subst hw
          obtain ⟨x, hx, hxe⟩ := push_each_error hc
          refine ⟨entries, x, ?_, hx, hxe⟩
          simp only [Json.at_key] at hp
          cases hl : kvs.lookup "pretokenizers" with
          | none => simp [hl] at hp
          | some v => simp only [hl, Except.ok.injEq] at hp; rw [hp]
    · simp [KINDS, h1, h2, h3, h4] at hk
  · intro j hj
    rw [parse_json_unfold]
    cases j with
    | object l => exact absurd rfl (hj l)
    | null => simp [Json.at_key, bind, Except.bind]
    | boolean b => simp [Json.at_key, bind, Except.bind]
    | number n => simp [Json.at_key, bind, Except.bind]
    | string s => simp [Json.at_key, bind, Except.bind]
    | array xs => simp [Json.at_key, bind, Except.bind]

/-- The witness of C6 as the code has it: no `type` member, and an unknown tag. -/
theorem parse_json_kind_validation_witness :
    parse_json (init "") (.object []) = .error (.json_out_of_range "type") ∧
    parse_json (init "") (.object [("type", .string "Whitespace")]) =
      .error (.runtime_error (UNSUPPORTED "Whitespace")) :=
  ⟨(parse_json_kind_validation (init "") []).1 rfl,
    (parse_json_kind_validation (init "") [("type", .string "Whitespace")]).2.2.1
      "Whitespace" (by simp [List.lookup]) (by simp [KINDS])⟩

/-- C6 fails as stated. A `Sequence` description, whose tag is one of the four,
fails with the unsupported-type error of a child; a tag that is present but is a
number fails with a `type_error`, not the unsupported-type error; a description
that is an array, so without tag, fails with a `type_error`, not a missing-field
error. -/
theorem parse_json_kind_claim_fails :
    parse_json (init "")
        (.object [("type", .string "Sequence"),
          ("pretokenizers", .array [.object [("type", .string "Foo")]])]) =
      .error (.runtime_error "Unsupported PreTokenizer type: Foo") ∧
    parse_json (init "") (.object [("type", .number 5)]) = .error (.json_type_error 302) ∧
    parse_json (init "") (.array []) = .error (.json_type_error 304) := by
  refine ⟨?_, ?_, ?_⟩
  · simp [parse_json_unfold, Json.at_key, List.lookup, Json.get_string, parse_children,
      push_each, Json.items, bind, Except.bind, UNSUPPORTED, init]
  · simp [parse_json_unfold, Json.at_key, List.lookup, Json.get_string, bind, Except.bind]
  · simp [parse_json_unfold, Json.at_key, bind, Except.bind]

namespace PreTokenizerConfig

/-- The read of the type tag of an object description. -/
theorem read_type (kvs : List (String × Json)) (tag : String)
    (ht : kvs.lookup "type" = some (.string tag)) :
    ((Json.object kvs).at_key "type" >>= Json.get_string) = .ok tag := by
  simp [Json.at_key, ht, bind, Except.bind, Json.get_string]

/-- The `Split` branch of `parse_json`. -/
theorem parse_json_split (self : PreTokenizerConfig) (kvs : List (String × Json))
    (ht : kvs.lookup "type" = some (.string "Split")) :
    parse_json self (.object kvs) =
      try_assign { self with type := "Split" }
        ((Json.object kvs).at_key "pattern" >>= (Json.at_key · "Regex") >>= Json.get_string)
        (fun c p => { c with pattern := some p }) := by
  rw [parse_json_unfold]
  simp only [read_type kvs _ ht]
  simp

/-- The `Digits` branch of `parse_json`. -/
theorem parse_json_digits (self : PreTokenizerConfig) (kvs : List (String × Json))
    (ht : kvs.lookup "type" = some (.string "Digits")) :
    parse_json self (.object kvs) =
      try_assign { self with type := "Digits" }
        ((Json.object kvs).at_key "individual_digits" >>= Json.get_bool)
        (fun c d => { c with individual_digits := some d }) := by
  rw [parse_json_unfold]
  simp only [read_type kvs _ ht]
  simp

/-- The `ByteLevel` branch of `parse_json`. -/
theorem parse_json_byte_level (self : PreTokenizerConfig) (kvs : List (String × Json))
    (ht : kvs.lookup "type" = some (.string "ByteLevel")) :
    parse_json self (.object kvs) =
      try_assign { self with type := "ByteLevel" }
        ((Json.object kvs).at_key "add_prefix_space" >>= Json.get_bool)
        (fun c a => { c with add_prefix_space := some a }) := by
  rw [parse_json_unfold]
  simp only [read_type kvs _ ht]
  simp

/-- The `Sequence` branch of `parse_json`. -/
theorem parse_json_sequence (self : PreTokenizerConfig) (kvs : List (String × Json))
    (ht : kvs.lookup "type" = some (.string "Sequence")) :
    parse_json self (.object kvs) =
      match (Json.object kvs).at_key "pretokenizers" with
      | .error e => .error e
      | .ok entries =>
        match parse_children entries with
        | .ok children => .ok { self with type := "Sequence", pretokenizers := some children }
        | .error e => .error e := by
  rw [parse_json_unfold]
  simp only [read_type kvs _ ht]
  simp

end PreTokenizerConfig

/-- C7. For an object description of type `Split`, `Digits` or `ByteLevel`:
when the member read for the type (`pattern.Regex`, `individual_digits`,
`add_prefix_space`) is absent, `parse_json` succeeds and changes nothing but the
type, so the member of the configuration stays as it was (unset for a fresh
one); when the member is present with the wrong shape (a `pattern` that is not
an object, a `Regex` that is not a string, a flag that is not a boolean),
`parse_json` fails with a `type_error`. -/
theorem parse_json_optional_members (self : PreTokenizerConfig) (kvs : List (String × Json)) :
    (kvs.lookup "type" = some (.string "Split") →
      ((kvs.lookup "pattern" = none ∨
          ∃ l, kvs.lookup "pattern" = some (.object l) ∧ l.lookup "Regex" = none) →
        parse_json self (.object kvs) = .ok { self with type := "Split" }) ∧
      (∀ v, kvs.lookup "pattern" = some v → (∀ l, v ≠ .object l) →
        parse_json self (.object kvs) = .error (.json_type_error 304)) ∧
      (∀ l v, kvs.lookup "pattern" = some (.object l) → l.lookup "Regex" = some v →
        (∀ s, v ≠ .string s) →
        parse_json self (.object kvs) = .error (.json_type_error 302))) ∧
    (kvs.lookup "type" = some (.string "Digits") →
      (kvs.lookup "individual_digits" = none →
        parse_json self (.object kvs) = .ok { self with type := "Digits" }) ∧
      (∀ v, kvs.lookup "individual_digits" = some v → (∀ b, v ≠ .boolean b) →
        parse_json self (.object kvs) = .error (.json_type_error 302))) ∧
    (kvs.lookup "type" = some (.string "ByteLevel") →
      (kvs.lookup "add_prefix_space" = none →
        parse_json self (.object kvs) = .ok { self with type := "ByteLevel" }) ∧
      (∀ v, kvs.lookup "add_prefix_space" = some v → (∀ b, v ≠ .boolean b) →
        parse_json self (.object kvs) = .error (.json_type_error 302))) := by
  refine ⟨?_, ?_, ?_⟩
  · intro ht
    rw [parse_json_split self kvs ht]
    refine ⟨?_, ?_, ?_⟩
    · intro h
      rcases h with h | ⟨l, h, hr⟩
      · simp [Json.at_key, h, bind, Except.bind, try_assign]
      · simp [Json.at_key, h, hr, bind, Except.bind, try_assign]
    · intro v h hv
      cases v with
      | object l => exact absurd rfl (hv l)
      | null => simp [Json.at_key, h, bind, Except.bind, try_assign]
      | boolean b => simp [Json.at_key, h, bind, Except.bind, try_assign]
      | number n => simp [Json.at_key, h, bind, Except.bind, try_assign]
      | string s => simp [Json.at_key, h, bind, Except.bind, try_assign]
      | array xs => simp [Json.at_key, h, bind, Except.bind, try_assign]
    · intro l v h hr hv
      cases v with
      | string s => exact absurd rfl (hv s)
      | null => simp [Json.at_key, h, hr, bind, Except.bind, try_assign, Json.get_string]
      | boolean b => simp [Json.at_key, h, hr, bind, Except.bind, try_assign, Json.get_string]
      | number n => simp [Json.at_key, h, hr, bind, Except.bind, try_assign, Json.get_string]
      | object l' => simp [Json.at_key, h, hr, bind, Except.bind, try_assign, Json.get_string]
      | array xs => simp [Json.at_key, h, hr, bind, Except.bind, try_assign, Json.get_string]
  · intro ht
    rw [parse_json_digits self kvs ht]
    refine ⟨?_, ?_⟩
    · intro h
      simp [Json.at_key, h, bind, Except.bind, try_assign]
    · intro v h hv
      cases v with
      | boolean b => exact absurd rfl (hv b)
      | null => simp [Json.at_key, h, bind, Except.bind, try_assign, Json.get_bool]
      | string s => simp [Json.at_key, h, bind, Except.bind, try_assign, Json.get_bool]
      | number n => simp [Json.at_key, h, bind, Except.bind, try_assign, Json.get_bool]
      | object l => simp [Json.at_key, h, bind, Except.bind, try_assign, Json.get_bool]
      | array xs => simp [Json.at_key, h, bind, Except.bind, try_assign, Json.get_bool]
  · intro ht
    rw [parse_json_byte_level self kvs ht]
    refine ⟨?_, ?_⟩
    · intro h
      simp [Json.at_key, h, bind, Except.bind, try_assign]
    · intro v h hv
      cases v with
      | boolean b => exact absurd rfl (hv b)
      | null => simp [Json.at_key, h, bind, Except.bind, try_assign, Json.get_bool]
      | string s => simp [Json.at_key, h, bind, Except.bind, try_assign, Json.get_bool]
      | number n => simp [Json.at_key, h, bind, Except.bind, try_assign, Json.get_bool]
      | object l => simp [Json.at_key, h, bind, Except.bind, try_assign, Json.get_bool]
      | array xs => simp [Json.at_key, h, bind, Except.bind, try_assign, Json.get_bool]

/-- The witness of C7: a `Digits` description without flag parses into a fresh
configuration with the flag unset; with the flag a number it fails; a `Split`
description whose `pattern` is a string fails. -/
theorem parse_json_optional_members_witness :
    (parse_json (init "") (.object [("type", .string "Digits")]) = .ok (init "Digits") ∧
      (init "Digits").individual_digits = none) ∧
    parse_json (init "") (.object [("type", .string "Digits"),
      ("individual_digits", .number 1)]) = .error (.json_type_error 302) ∧
    parse_json (init "") (.object [("type", .string "Split"),
      ("pattern", .string "[0-9]+")]) = .error (.json_type_error 304) :=
  ⟨⟨((parse_json_optional_members (init "") [("type", .string "Digits")]).2.1
        (by simp [List.lookup])).1 (by simp [List.lookup]), rfl⟩,
    ((parse_json_optional_members (init "")
        [("type", .string "Digits"), ("individual_digits", .number 1)]).2.1
        (by simp [List.lookup])).2 (.number 1) (by simp [List.lookup]) (by simp),
    ((parse_json_optional_members (init "")
        [("type", .string "Split"), ("pattern", .string "[0-9]+")]).1
        (by simp [List.lookup])).2.1 (.string "[0-9]+") (by simp [List.lookup]) (by simp)⟩

/-- The loop `push_each` succeeds exactly when `f` succeeds on every entry, and
then gives the results in the order of the entries. -/
theorem PreTokenizerConfig.push_each_ok_iff {α β : Type} (f : α → Except Error β)
    (l : List α) (vs : List β) :
    push_each f l = .ok vs ↔ List.Forall₂ (fun x v => f x = .ok v) l vs := by
  induction l generalizing vs with
  | nil =>
    constructor
    · intro h
      simp only [push_each, Except.ok.injEq] at h
      subst h
      exact List.Forall₂.nil
    · intro h
      cases h
      rfl
  | cons x rest ih =>
    constructor
    · intro h
      simp only [push_each] at h
      cases hx : f x with
      | error e => simp [hx] at h
      | ok v =>
        cases hr : push_each f rest with
        | error e => simp [hx, hr] at h
        | ok vs' =>
          simp only [hx, hr, Except.ok.injEq] at h
          subst h
          exact List.Forall₂.cons hx ((ih vs').1 hr)
    · intro h
      cases h with
      | cons hx hrest => simp only [push_each, hx, (ih _).2 hrest]

/-- C8, as the code has it. An object description of type `Sequence` without
`pretokenizers` member does not parse: `parse_json` fails with the
`out_of_range` error of the key, so the missing children are reported at parse,
and no configuration reaches `create`. A `Sequence` configuration whose children
are unset, which `parse_json` does not produce, fails in `create` with the
missing-children error. -/
theorem parse_json_sequence_without_children (env : Env) (self : PreTokenizerConfig)
    (kvs : List (String × Json))
    (ht : kvs.lookup "type" = some (.string "Sequence"))
    (hp : kvs.lookup "pretokenizers" = none) :
    parse_json self (.object kvs) = .error (.json_out_of_range "pretokenizers") ∧
    create env { self with type := "Sequence", pretokenizers := none } =
      .error (.runtime_error MISSING_PRETOKENIZERS) := by
  constructor
  · rw [parse_json_sequence self kvs ht]
    simp [Json.at_key, hp]
  · simp [create]

/-- The witness of C8 as the code has it: the description with nothing but the
type `Sequence`. -/
theorem parse_json_sequence_without_children_witness :
    parse_json (init "") (.object [("type", .string "Sequence")]) =
        .error (.json_out_of_range "pretokenizers") ∧
    create example_env (init "Sequence") = .error (.runtime_error MISSING_PRETOKENIZERS) :=
  parse_json_sequence_without_children example_env (init "")
    [("type", .string "Sequence")] (by simp [List.lookup]) (by simp [List.lookup])

/-- C8 fails as stated: the description with nothing but the type `Sequence`
does not parse, so the failure is that of `parse_json` and it is not the
missing-children error. -/
theorem parse_json_sequence_without_children_fails :
    parse_json (init "") (.object [("type", .string "Sequence")]) =
        .error (.json_out_of_range "pretokenizers") ∧
    ¬ ∃ cfg, parse_json (init "") (.object [("type", .string "Sequence")]) = .ok cfg := by
  have h : parse_json (init "") (.object [("type", .string "Sequence")]) =
      .error (.json_out_of_range "pretokenizers") := by
    simp [parse_json_unfold, Json.at_key, List.lookup, Json.get_string, bind, Except.bind]
  refine ⟨h, ?_⟩
  rintro ⟨cfg, hc⟩
  rw [h] at hc
  cases hc

/-- C9. Order is kept by parse and by build. A `Sequence` description whose
`pretokenizers` member is the array `ds` parses into `cfg` exactly when `cfg` is
the configuration with type `Sequence` and a children list `cs` of the length of
`ds` whose `i`-th element is what `ds[i]` parses to in a fresh configuration. A
`Sequence` configuration with children `cs` builds into `t` exactly when `cs` is
not empty and `t` is the sequence of a list `ts` of the length of `cs` whose
`i`-th element is what `cs[i]` builds to. -/
theorem parse_and_create_keep_order (env : Env) :
    (∀ (self cfg : PreTokenizerConfig) (kvs : List (String × Json)) (ds : List Json),
      kvs.lookup "type" = some (.string "Sequence") →
      kvs.lookup "pretokenizers" = some (.array ds) →
      (parse_json self (.object kvs) = .ok cfg ↔
        ∃ cs, cfg = { self with type := "Sequence", pretokenizers := some cs } ∧
          ds.length = cs.length ∧
          ∀ i (h₁ : i < ds.length) (h₂ : i < cs.length),
            parse_json (init "") (ds.get ⟨i, h₁⟩) = .ok (cs.get ⟨i, h₂⟩))) ∧
    (∀ (cfg : PreTokenizerConfig) (cs : List PreTokenizerConfig) (t : PreTokenizer),
      cfg.type = "Sequence" → cfg.pretokenizers = some cs →
      (create env cfg = .ok t ↔
        cs ≠ [] ∧ ∃ ts, t = .Sequence ts ∧ cs.length = ts.length ∧
          ∀ i (h₁ : i < cs.length) (h₂ : i < ts.length),
            create env (cs.get ⟨i, h₁⟩) = .ok (ts.get ⟨i, h₂⟩))) := by
  constructor
  · intro self cfg kvs ds ht hp
    rw [parse_json_sequence self kvs ht]
    have hat : (Json.object kvs).at_key "pretokenizers" = .ok (.array ds) := by
      simp [Json.at_key, hp]
    simp only [hat, parse_children, Json.items]
    constructor
    · intro h
      cases hc : push_each (parse_json (init "")) ds with
      | error e => simp [hc] at h
      | ok cs =>
        simp only [hc, Except.ok.injEq] at h
        exact ⟨cs, h.symm, List.forall₂_iff_get.1 ((push_each_ok_iff _ _ _).1 hc)⟩
    · rintro ⟨cs, rfl, hlen, hget⟩
      rw [(push_each_ok_iff _ _ _).2 (List.forall₂_iff_get.2 ⟨hlen, hget⟩)]
  · intro cfg cs t hk hcs
    by_cases hne : cs = []
    · subst hne
      obtain ⟨type, pattern, individual_digits, add_prefix_space, pretokenizers⟩ := cfg
      simp only at hk hcs
      subst hk hcs
      simp [create]
    · rw [create_sequence env cfg cs hk hcs hne]
      constructor
      · intro h
        cases hc : create_each env cs with
        | error e => simp [hc] at h
        | ok ts =>
          simp only [hc, Except.ok.injEq] at h
          exact ⟨hne, ts, h.symm, List.forall₂_iff_get.1 ((create_each_ok_iff env cs ts).1 hc)⟩
      · rintro ⟨-, ts, rfl, hlen, hget⟩
        rw [(create_each_ok_iff env cs ts).2 (List.forall₂_iff_get.2 ⟨hlen, hget⟩)]

/-- The witness of C9: a sequence of a `Digits` and a `ByteLevel` description
parses into the two configurations in that order, and the configuration builds
into the two strategies in that order. -/
theorem parse_and_create_keep_order_witness :
    parse_json (init "")
        (.object [("type", .string "Sequence"),
          ("pretokenizers", .array [.object [("type", .string "Digits")],
            .object [("type", .string "ByteLevel")]])]) =
      .ok { init "Sequence" with pretokenizers := some [init "Digits", init "ByteLevel"] } ∧
    create example_env
        { init "Sequence" with pretokenizers := some [init "Digits", init "ByteLevel"] } =
      .ok (.Sequence [.Digits false, .ByteLevel ByteLevelPreTokenizer.GPT2_EXPR false]) := by
  constructor
  · refine ((parse_and_create_keep_order example_env).1 (init "") _ _
      [.object [("type", .string "Digits")], .object [("type", .string "ByteLevel")]]
      (by simp [List.lookup]) (by simp [List.lookup])).2
      ⟨[init "Digits", init "ByteLevel"], rfl, rfl, ?_⟩
    intro i h₁ h₂
    have hi : i = 0 ∨ i = 1 := by
      simp only [List.length_cons, List.length_nil] at h₁
      omega
    rcases hi with rfl | rfl
    · simp [parse_json_unfold, Json.at_key, List.lookup, Json.get_string, Json.get_bool, bind,
        Except.bind, try_assign, init]
    · simp [parse_json_unfold, Json.at_key, List.lookup, Json.get_string, Json.get_bool, bind,
        Except.bind, try_assign, init]
  · refine ((parse_and_create_keep_order example_env).2 _ [init "Digits", init "ByteLevel"] _
      rfl rfl).2 ⟨by simp, _, rfl, rfl, ?_⟩
    intro i h₁ h₂
    have hi : i = 0 ∨ i = 1 := by
      simp only [List.length_cons, List.length_nil] at h₁
      omega
    rcases hi with rfl | rfl
    · simp [create, init, DigitsPreTokenizer.default_individual_digits]
    · simp [create, init, ByteLevelPreTokenizer.new,
        ByteLevelPreTokenizer.default_add_prefix_space, ByteLevelPreTokenizer.default_pattern,
        String.isEmpty]

/-- C10. Fail-fast building of children: when the child at index `i` of a
`Sequence` configuration fails to build with error `e` and every child before it
builds, `create` fails with `e`, and so returns no strategy. -/
theorem create_fails_with_first_child_error (env : Env) (cfg : PreTokenizerConfig)
    (cs : List PreTokenizerConfig) (i : Nat) (e : Error)
    (hk : cfg.type = "Sequence") (hcs : cfg.pretokenizers = some cs)
    (hi : i < cs.length) (hfail : create env (cs.get ⟨i, hi⟩) = .error e)
    (hbefore : ∀ j (hj : j < cs.length), j < i → ∃ t, create env (cs.get ⟨j, hj⟩) = .ok t) :
    create env cfg = .error e ∧ ¬ ∃ t, create env cfg = .ok t := by
  have hne : cs ≠ [] := by
    intro h
    subst h
    simp at hi
  have h : create env cfg = .error e := by
    rw [create_sequence env cfg cs hk hcs hne, create_each_error env cs i e hi hfail hbefore]
  refine ⟨h, ?_⟩
  rintro ⟨t, ht⟩
  rw [h] at ht
  cases ht

/-- The witness of C10: of the children `Digits`, `Split` without pattern and an
unknown type, the second is the first to fail, and its error is the one reported. -/
theorem create_fails_with_first_child_error_witness :
    create example_env
        { init "Sequence" with
          pretokenizers := some [init "Digits", init "Split", init "Whitespace"] } =
      .error (.runtime_error MISSING_PATTERN) :=
  (create_fails_with_first_child_error example_env
    { init "Sequence" with
      pretokenizers := some [init "Digits", init "Split", init "Whitespace"] }
    [init "Digits", init "Split", init "Whitespace"] 1 (.runtime_error MISSING_PATTERN)
    rfl rfl (by simp) (by simp [create, init])
    (by
      intro j hj hj1
      have : j = 0 := by omega
      subst this
      exact ⟨.Digits DigitsPreTokenizer.default_individual_digits, by simp [create, init]⟩)).1

/-! ## The prefix space and the empty sequence -/

/-- C12. The prefix-space step is idempotent for every input and flag; with the
flag set, "hello" becomes " hello", whose first char is a space and whose second
is not, and " hello" stays " hello". -/
theorem formatted_input_idempotent (add_prefix_space_ : Bool) (x : Text) :
    ByteLevelPreTokenizer.formatted_input add_prefix_space_
        (ByteLevelPreTokenizer.formatted_input add_prefix_space_ x) =
      ByteLevelPreTokenizer.formatted_input add_prefix_space_ x ∧
    ByteLevelPreTokenizer.formatted_input true ['h', 'e', 'l', 'l', 'o'] =
      [' ', 'h', 'e', 'l', 'l', 'o'] ∧
    ByteLevelPreTokenizer.formatted_input true [' ', 'h', 'e', 'l', 'l', 'o'] =
      [' ', 'h', 'e', 'l', 'l', 'o'] := by
  refine ⟨?_, by decide, by decide⟩
  cases add_prefix_space_ with
  | false => simp [ByteLevelPreTokenizer.formatted_input]
  | true =>
    cases x with
    | nil => simp [ByteLevelPreTokenizer.formatted_input]
    | cons c cs =>
      by_cases hc : c = ' '
      · subst hc
        simp [ByteLevelPreTokenizer.formatted_input]
      · simp [ByteLevelPreTokenizer.formatted_input, hc]

/-- C15. A sequence constructed with an empty child list returns, for every
input, the empty string included, the one-element sequence of the input. -/
theorem empty_sequence_is_identity (env : Env) (x : Text) :
    (PreTokenizer.Sequence []).pre_tokenize env x = .ok [x] ∧
    (PreTokenizer.Sequence []).pre_tokenize env [] = .ok [[]] := by
  constructor <;>
    simp [PreTokenizer.pre_tokenize, PreTokenizer.splitters, SequencePreTokenizer.pre_tokenize,
      SequencePreTokenizer.run]

/-! ## Construction of the strategies -/

/-- C13, as the code has it. A pattern that the engine fails to compile, and
that is not empty, makes the construction of a `RegexPreTokenizer` fail with the
pattern error of the engine, so no strategy is built, also through `create`.
The constructor of `ByteLevelPreTokenizer` does not compile its pattern: it
stores it and always gives a strategy, also through `create`. -/
theorem pattern_errors_at_construction (env : Env) (pattern : String) (code : Nat)
    (hfail : env.create_regex pattern = .error code) (hne : pattern ≠ "") :
    RegexPreTokenizer.new env pattern = .error (.pattern_error code) ∧
    create env { init "Split" with pattern := some pattern } = .error (.pattern_error code) ∧
    (∀ a, ByteLevelPreTokenizer.new a pattern = .ByteLevel pattern a) ∧
    (∀ a, create env { init "ByteLevel" with pattern := some pattern, add_prefix_space := some a }
      = .ok (.ByteLevel pattern a)) := by
  have hemp : pattern.isEmpty = false := by
    cases h : pattern.isEmpty with
    | false => rfl
    | true => exact absurd ((String.isEmpty_iff pattern).1 h) hne
  have hnew : RegexPreTokenizer.new env pattern = .error (.pattern_error code) := by
    simp [RegexPreTokenizer.new, RegexPreTokenizer.create_regex_, hemp, hfail, TK_UNWRAP_THROW]
  refine ⟨hnew, ?_, ?_, ?_⟩
  · simp [create, init, hnew]
  · intro a
    simp [ByteLevelPreTokenizer.new, hemp]
  · intro a
    simp [create, init, ByteLevelPreTokenizer.new, hemp]

/-- The witness of C13 as the code has it: the pattern "(" with an engine that
compiles nothing. -/
theorem pattern_errors_at_construction_witness :
    RegexPreTokenizer.new failing_env "(" = .error (.pattern_error 1) ∧
    create failing_env { init "Split" with pattern := some "(" } =
      .error (.pattern_error 1) :=
  have h := pattern_errors_at_construction failing_env "(" 1 rfl (by decide)
  ⟨h.1, h.2.1⟩

/-- C13 fails as stated: with an engine that compiles nothing, a byte-level
strategy with the override pattern "(" is constructed all the same, by the
constructor and by `create`, and is used by `pre_tokenize`. -/
theorem byte_level_construction_does_not_compile :
    failing_env.create_regex "(" = .error 1 ∧
    create failing_env { init "ByteLevel" with pattern := some "(" } =
      .ok (ByteLevelPreTokenizer.new ByteLevelPreTokenizer.default_add_prefix_space "(") ∧
    ByteLevelPreTokenizer.new true "(" = .ByteLevel "(" true ∧
    (ByteLevelPreTokenizer.new true "(").pre_tokenize failing_env ['a'] = .ok [[' ', 'a']] := by
  have hemp : ("(" : String).isEmpty = false := by decide
  refine ⟨rfl, ?_, ?_, ?_⟩
  · simp [create, init]
  · simp [ByteLevelPreTokenizer.new, hemp]
  · simp [ByteLevelPreTokenizer.new, hemp, PreTokenizer.pre_tokenize,
      ByteLevelPreTokenizer.pre_tokenize, ByteLevelPreTokenizer.formatted_input, failing_env]

/-- C14. Factory round trip: on every input, what `create` builds splits like
the instance constructed by hand with the same parameters. `Split` with pattern
`p` is `RegexPreTokenizer(p)`; `Digits` is `DigitsPreTokenizer(d)`, with `false`
for an absent flag; `ByteLevel` is `ByteLevelPreTokenizer(a, p)`, with `false`
for an absent flag and the default pattern for an absent pattern; `Sequence` is
`SequencePreTokenizer` of the built children. -/
theorem factory_round_trip (env : Env) (p : String) (d a : Bool)
    (pattern : Option String) (individual_digits add_prefix_space : Option Bool)
    (pretokenizers : Option (List PreTokenizerConfig)) (x : Text) :
    built_pre_tokenize env
        (create env ⟨"Split", some p, individual_digits, add_prefix_space, pretokenizers⟩) x =
      built_pre_tokenize env (RegexPreTokenizer.new env p) x ∧
    built_pre_tokenize env
        (create env ⟨"Digits", pattern, none, add_prefix_space, pretokenizers⟩) x =
      (PreTokenizer.Digits false).pre_tokenize env x ∧
    built_pre_tokenize env
        (create env ⟨"Digits", pattern, some d, add_prefix_space, pretokenizers⟩) x =
      (PreTokenizer.Digits d).pre_tokenize env x ∧
    built_pre_tokenize env
        (create env ⟨"ByteLevel", some p, individual_digits, some a, pretokenizers⟩) x =
      (ByteLevelPreTokenizer.new a p).pre_tokenize env x ∧
    built_pre_tokenize env
        (create env ⟨"ByteLevel", some p, individual_digits, none, pretokenizers⟩) x =
      (ByteLevelPreTokenizer.new false p).pre_tokenize env x ∧
    built_pre_tokenize env
        (create env ⟨"ByteLevel", none, individual_digits, some a, pretokenizers⟩) x =
      (PreTokenizer.ByteLevel ByteLevelPreTokenizer.GPT2_EXPR a).pre_tokenize env x ∧
    built_pre_tokenize env
        (create env ⟨"ByteLevel", none, individual_digits, none, pretokenizers⟩) x =
      (PreTokenizer.ByteLevel ByteLevelPreTokenizer.GPT2_EXPR false).pre_tokenize env x ∧
    (∀ cs ts, cs ≠ [] → List.Forall₂ (fun c t => create env c = .ok t) cs ts →
      built_pre_tokenize env
          (create env ⟨"Sequence", pattern, individual_digits, add_prefix_space, some cs⟩) x =
        (PreTokenizer.Sequence ts).pre_tokenize env x) := by
  have hemp : ("" : String).isEmpty = true := by decide
  refine ⟨?_, ?_, ?_, ?_, ?_, ?_, ?_, ?_⟩
  · simp [create]
  · simp [create, built_pre_tokenize, DigitsPreTokenizer.default_individual_digits]
  · simp [create, built_pre_tokenize]
  · simp [create, built_pre_tokenize]
  · simp [create, built_pre_tokenize, ByteLevelPreTokenizer.default_add_prefix_space]
  · simp [create, built_pre_tokenize, ByteLevelPreTokenizer.default_pattern,
      ByteLevelPreTokenizer.new, hemp]
  · simp [create, built_pre_tokenize, ByteLevelPreTokenizer.default_pattern,
      ByteLevelPreTokenizer.default_add_prefix_space, ByteLevelPreTokenizer.new, hemp]
  · intro cs ts hne hts
    rw [create_sequence env _ cs rfl rfl hne, (create_each_ok_iff env cs ts).2 hts]
    rfl

/-- The witness of C14: a sequence of a `Digits` and a `ByteLevel` configuration
splits like the sequence of the two strategies constructed by hand. -/
theorem factory_round_trip_witness :
    built_pre_tokenize example_env
        (create example_env
          ⟨"Sequence", none, none, none, some [init "Digits", init "ByteLevel"]⟩)
        ['a', '1'] =
      (PreTokenizer.Sequence
        [.Digits false, .ByteLevel ByteLevelPreTokenizer.GPT2_EXPR false]).pre_tokenize
        example_env ['a', '1'] :=
  (factory_round_trip example_env "" false false none none none none ['a', '1']).2.2.2.2.2.2.2
    [init "Digits", init "ByteLevel"]
    [.Digits false, .ByteLevel ByteLevelPreTokenizer.GPT2_EXPR false] (by simp)
    (List.Forall₂.cons
      (by simp [create, init, DigitsPreTokenizer.default_individual_digits])
      (List.Forall₂.cons
        (by
          have hemp : ("" : String).isEmpty = true := by decide
          simp [create, init, ByteLevelPreTokenizer.new, hemp,
            ByteLevelPreTokenizer.default_add_prefix_space,
            ByteLevelPreTokenizer.default_pattern])
        List.Forall₂.nil))

/-! ## The type tag after parsing -/

/-- The messages of the two missing-member errors are not an unsupported-type
message. -/
theorem PreTokenizerConfig.missing_ne_unsupported (tag : String) :
    MISSING_PATTERN ≠ UNSUPPORTED tag ∧ MISSING_PRETOKENIZERS ≠ UNSUPPORTED tag := by
  constructor
  · intro h
    have hd := congrArg String.data h
    simp [MISSING_PATTERN, UNSUPPORTED, String.data_append] at hd
  · intro h
    have hd := congrArg String.data h
    simp [MISSING_PRETOKENIZERS, UNSUPPORTED, String.data_append] at hd

/-- A list of configurations is `all_kinds_known` when each of its elements is
`kinds_known`. -/
theorem PreTokenizerConfig.all_kinds_known_of_forall (cs : List PreTokenizerConfig)
    (h : ∀ c ∈ cs, kinds_known c = true) : all_kinds_known cs = true := by
  induction cs with
  | nil => rfl
  | cons c rest ih =>
    simp only [all_kinds_known, Bool.and_eq_true]
    exact ⟨h c (List.mem_cons_self c rest), ih (fun c' hc' => h c' (List.mem_cons_of_mem c hc'))⟩

/-- The results of a `Forall₂` are reached from its entries. -/
theorem PreTokenizerConfig.forall₂_right_mem {α β : Type} {R : α → β → Prop} {l : List α}
    {vs : List β} (h : List.Forall₂ R l vs) : ∀ v ∈ vs, ∃ x ∈ l, R x v := by
  induction h with
  | nil => intro v hv; simp at hv
  | cons hr _ ih =>
    intro v hv
    rcases List.mem_cons.1 hv with rfl | hv'
    · exact ⟨_, List.mem_cons_self _ _, hr⟩
    · obtain ⟨x, hx, hxv⟩ := ih v hv'
      exact ⟨x, List.mem_cons_of_mem _ hx, hxv⟩

/-- What `try_assign` returns has the type and the children of the
configuration it started from, when the assignment keeps both. -/
theorem PreTokenizerConfig.try_assign_ok {α : Type} {self cfg : PreTokenizerConfig}
    {value : Except Error α} {assign : PreTokenizerConfig → α → PreTokenizerConfig}
    (h : try_assign self value assign = .ok cfg)
    (hassign : ∀ c v, (assign c v).type = c.type ∧ (assign c v).pretokenizers = c.pretokenizers) :
    cfg.type = self.type ∧ cfg.pretokenizers = self.pretokenizers := by
  cases value with
  | ok v =>
    simp only [try_assign, Except.ok.injEq] at h
    subst h
    exact hassign self v
  | error e =>
    cases e <;> simp [try_assign] at h
    subst h
    exact ⟨rfl, rfl⟩

/-- A configuration is `kinds_known` when its type is known and its children,
if set, are. -/
theorem PreTokenizerConfig.kinds_known_iff (cfg : PreTokenizerConfig) :
    kinds_known cfg = true ↔
      cfg.type ∈ KINDS ∧ ∀ cs, cfg.pretokenizers = some cs → all_kinds_known cs = true := by
  obtain ⟨type, pattern, individual_digits, add_prefix_space, pretokenizers⟩ := cfg
  cases pretokenizers with
  | none => simp [kinds_known]
  | some cs => simp [kinds_known]

/-- Every configuration that `parse_json` gives from a fresh one has known
types throughout. -/
theorem PreTokenizerConfig.parse_json_kinds_known (j : Json) :
    ∀ cfg, parse_json (init "") j = .ok cfg → kinds_known cfg = true := by
  suffices aux : ∀ n, ∀ j : Json, sizeOf j = n → ∀ cfg,
      parse_json (init "") j = .ok cfg → kinds_known cfg = true from aux _ j rfl
  intro n
  induction n using Nat.strong_induction_on with
  | _ n ih =>
    intro j hn cfg h
    rw [parse_json_unfold] at h
    cases ht : (j.at_key "type" >>= Json.get_string) with
    | error e => simp [ht] at h
    | ok type =>
      simp only [ht] at h
      split_ifs at h with h1 h2 h3 h4
      · have := try_assign_ok h (fun _ _ => ⟨rfl, rfl⟩)
        rw [kinds_known_iff, this.1, this.2]
        simp [KINDS, h1, init]
      · have := try_assign_ok h (fun _ _ => ⟨rfl, rfl⟩)
        rw [kinds_known_iff, this.1, this.2]
        simp [KINDS, h2, init]
      · have := try_assign_ok h (fun _ _ => ⟨rfl, rfl⟩)
        rw [kinds_known_iff, this.1, this.2]
        simp [KINDS, h3, init]
      · cases hp : j.at_key "pretokenizers" with
        | error e => simp [hp] at h
        | ok entries =>
          simp only [hp] at h
          cases hc : parse_children entries with
          | error e => simp [hc] at h
          | ok children =>
            simp only [hc, Except.ok.injEq] at h
            subst h
            rw [kinds_known_iff]
            refine ⟨by simp [KINDS, h4], ?_⟩
            intro cs hcs
            simp only [Option.some.injEq] at hcs
            subst hcs
            apply all_kinds_known_of_forall
            intro c hc'
            obtain ⟨x, hx, hxc⟩ := forall₂_right_mem ((push_each_ok_iff _ _ _).1 hc) c hc'
            have h1 := sizeOf_lt_of_at_key hp
            have h2 := sizeOf_le_of_mem_items hx
            exact ih (sizeOf x) (by omega) x rfl c hxc

/-- The elements of an `all_kinds_known` list are `kinds_known`. -/
theorem PreTokenizerConfig.kinds_known_of_mem (cs : List PreTokenizerConfig)
    (h : all_kinds_known cs = true) : ∀ c ∈ cs, kinds_known c = true := by
  induction cs with
  | nil => intro c hc; simp at hc
  | cons c rest ih =>
    simp only [all_kinds_known, Bool.and_eq_true] at h
    intro c' hc'
    rcases List.mem_cons.1 hc' with rfl | hmem
    · exact h.1
    · exact ih h.2 c' hmem

/-- The children loop throws what one of the children throws. -/
theorem PreTokenizerConfig.create_each_error_mem (env : Env) (cs : List PreTokenizerConfig)
    (e : Error) (h : create_each env cs = .error e) : ∃ c ∈ cs, create env c = .error e := by
  induction cs with
  | nil => simp [create_each] at h
  | cons c rest ih =>
    simp only [create_each] at h
    cases hc : create env c with
    | error e' =>
      simp only [hc, Except.error.injEq] at h
      subst h
      exact ⟨c, List.mem_cons_self c rest, hc⟩
    | ok t =>
      cases hr : create_each env rest with
      | ok ts => simp [hc, hr] at h
      | error e' =>
        simp only [hc, hr, Except.error.injEq] at h
        subst h
        obtain ⟨c', hc', hce⟩ := ih hr
        exact ⟨c', List.mem_cons_of_mem c hc', hce⟩

/-- A configuration with known types throughout does not fail to build with
the unsupported-type error. -/
theorem PreTokenizerConfig.create_known (env : Env) (cfg : PreTokenizerConfig) :
    kinds_known cfg = true → ∀ w, create env cfg ≠ .error (.runtime_error (UNSUPPORTED w)) := by
  suffices aux : ∀ n, ∀ cfg : PreTokenizerConfig, sizeOf cfg = n → kinds_known cfg = true →
      ∀ w, create env cfg ≠ .error (.runtime_error (UNSUPPORTED w)) from aux _ cfg rfl
  intro n
  induction n using Nat.strong_induction_on with
  | _ n ih =>
    intro cfg hn hk w
    have hmsg := missing_ne_unsupported w
    have hk' := (kinds_known_iff cfg).1 hk
    obtain ⟨type, pattern, individual_digits, add_prefix_space, pretokenizers⟩ := cfg
    simp only at hk'
    have hsz : ∀ cs, pretokenizers = some cs → ∀ c ∈ cs, sizeOf c < n := by
      intro cs hcs c hc
      subst hcs
      have hlt := List.sizeOf_lt_of_mem hc
      rw [← hn]
      simp only [PreTokenizerConfig.mk.sizeOf_spec, Option.some.sizeOf_spec]
      omega
    clear hn hk
    intro hcreate
    have hmem := hk'.1
    simp only [KINDS, List.mem_cons, List.mem_singleton, List.not_mem_nil, or_false] at hmem
    rcases hmem with rfl | rfl | rfl | rfl
    · cases pattern with
      | none => simp [create, hmsg.1] at hcreate
      | some p =>
        simp only [create, RegexPreTokenizer.new, RegexPreTokenizer.create_regex_,
          if_true] at hcreate
        split_ifs at hcreate
        · simp at hcreate
        · cases hc : env.create_regex p <;> simp [hc, TK_UNWRAP_THROW] at hcreate
    · cases individual_digits <;> simp [create] at hcreate
    · cases add_prefix_space <;> cases pattern <;> simp [create] at hcreate
    · cases pretokenizers with
      | none => simp [create, hmsg.2] at hcreate
      | some cs =>
        cases cs with
        | nil => simp [create, hmsg.2] at hcreate
        | cons c rest =>
          rw [create_sequence env _ (c :: rest) rfl rfl (by simp)] at hcreate
          cases hce : create_each env (c :: rest) with
          | ok ts => simp [hce] at hcreate
          | error e =>
            simp only [hce, Except.error.injEq] at hcreate
            subst hcreate
            obtain ⟨c', hc', hfail⟩ := create_each_error_mem env _ _ hce
            exact ih (sizeOf c') (hsz _ rfl c' hc') c' rfl
              (kinds_known_of_mem _ (hk'.2 _ rfl) c' hc') w hfail

/-- A configuration whose type is not one of the four fails to build with the
unsupported-type error of its type. -/
theorem PreTokenizerConfig.create_unknown (env : Env) (cfg : PreTokenizerConfig)
    (h : cfg.type ∉ KINDS) : create env cfg = .error (.runtime_error (UNSUPPORTED cfg.type)) := by
  obtain ⟨type, pattern, individual_digits, add_prefix_space, pretokenizers⟩ := cfg
  simp only [KINDS, List.mem_cons, List.mem_singleton, List.not_mem_nil, or_false,
    not_or] at h
  cases pattern <;> cases individual_digits <;> cases add_prefix_space <;>
    rcases pretokenizers with _ | _ | _ <;>
    simp [create, h.1, h.2.1, h.2.2.1, h.2.2.2]

/-- C16. A configuration that `parse_json` gives from a fresh one has, itself
and in every configuration nested in its children, a type that is one of the
four known ones, so `create` on it does not fail with the unsupported-type
error; and `create` on any configuration whose type is not one of the four
fails with the unsupported-type error of that type. -/
theorem unsupported_kind_unreachable_after_parse (env : Env) (j : Json)
    (cfg : PreTokenizerConfig) (hparse : parse_json (init "") j = .ok cfg) :
    cfg.type ∈ KINDS ∧ kinds_known cfg = true ∧
    (∀ w, create env cfg ≠ .error (.runtime_error (UNSUPPORTED w))) ∧
    (∀ other : PreTokenizerConfig, other.type ∉ KINDS →
      create env other = .error (.runtime_error (UNSUPPORTED other.type))) := by
  have hk := parse_json_kinds_known j cfg hparse
  exact ⟨((kinds_known_iff cfg).1 hk).1, hk, create_known env cfg hk,
    fun other h => create_unknown env other h⟩

/-- The witness of C16: a parsed sequence of a `Digits` description. -/
theorem unsupported_kind_unreachable_after_parse_witness :
    kinds_known { init "Sequence" with pretokenizers := some [init "Digits"] } = true ∧
    create example_env (init "Whitespace") =
      .error (.runtime_error (UNSUPPORTED "Whitespace")) :=
  have h := unsupported_kind_unreachable_after_parse example_env
    (.object [("type", .string "Sequence"),
      ("pretokenizers", .array [.object [("type", .string "Digits")]])])
    { init "Sequence" with pretokenizers := some [init "Digits"] }
    (by
      simp [parse_json_unfold, Json.at_key, List.lookup, Json.get_string, Json.get_bool,
        parse_children, push_each, Json.items, bind, Except.bind, try_assign, init])
  ⟨h.2.1, h.2.2.2 (init "Whitespace") (by simp [KINDS, init])⟩

/-! ## Pattern extraction gives no more than the input -/

/-- Matches in bounds, each starting no earlier than the previous one ends, the
first no earlier than `prev` ends, cover together no more than what is left of
a text of length `n` after `prev`. -/
theorem RegexPreTokenizer.sum_lengths_le (n : Nat) (ms : List Match) :
    ∀ prev : Match, prev.end_ ≤ n →
      (∀ m ∈ ms, m.start ≤ m.end_ ∧ m.end_ ≤ n) →
      List.Chain (fun a b => a.end_ ≤ b.start) prev ms →
      (ms.map (fun m => m.end_ - m.start)).sum + prev.end_ ≤ n := by
  induction ms with
  | nil => intro prev hp _ _; simpa using hp
  | cons m rest ih =>
    intro prev _ hb hc
    have hm := hb m (List.mem_cons_self m rest)
    rw [List.chain_cons] at hc
    have hrest := ih m hm.2 (fun m' hm' => hb m' (List.mem_cons_of_mem m hm')) hc.2
    simp only [List.map_cons, List.sum_cons]
    omega

/-- C17. When the matches that `find_all` reports lie inside the input and do
not overlap, in left-to-right order, `pre_tokenize` does not fail, each piece
has the length `end - start` of its match, and the lengths of the pieces sum to
no more than the length of the input, to zero when there is no match. -/
theorem regex_pre_tokenize_bounded (re : IRegex) (x : Text) (hx : x.length < SIZE_MOD)
    (hb : ∀ m ∈ re.find_all x, m.start ≤ m.end_ ∧ m.end_ ≤ x.length)
    (hc : List.Chain' (fun a b => a.end_ ≤ b.start) (re.find_all x)) :
    ∃ pieces, RegexPreTokenizer.pre_tokenize (some re) x = .ok pieces ∧
      pieces.map List.length = (re.find_all x).map (fun m => m.end_ - m.start) ∧
      (pieces.map List.length).sum ≤ x.length ∧
      (re.find_all x = [] → (pieces.map List.length).sum = 0) := by
  refine ⟨(re.find_all x).map (fun m => (x.drop m.start).take (m.end_ - m.start)), ?_, ?_, ?_, ?_⟩
  · simp only [RegexPreTokenizer.pre_tokenize]
    rw [RegexPreTokenizer.push_matches_in_bounds x hx _ _ hb]
    simp
  · rw [List.map_map]
    apply List.map_congr_left
    intro m hm
    have := hb m hm
    simp only [Function.comp_apply, List.length_take, List.length_drop]
    omega
  · have hlen : ((re.find_all x).map
        (fun m => (x.drop m.start).take (m.end_ - m.start))).map List.length =
        (re.find_all x).map (fun m => m.end_ - m.start) := by
      rw [List.map_map]
      apply List.map_congr_left
      intro m hm
      have := hb m hm
      simp only [Function.comp_apply, List.length_take, List.length_drop]
      omega
    rw [hlen]
    cases hms : re.find_all x with
    | nil => simp
    | cons m rest =>
      rw [hms] at hb hc
      have hm := hb m (List.mem_cons_self m rest)
      have := RegexPreTokenizer.sum_lengths_le x.length rest m hm.2
        (fun m' hm' => hb m' (List.mem_cons_of_mem m hm')) hc
      simp only [List.map_cons, List.sum_cons]
      omega
  · intro h
    simp [h]

/-- The witness of C17: the matches (2,4) and (6,8) on "ab12cd34" give two
pieces of length 2. -/
theorem regex_pre_tokenize_bounded_witness :
    ∃ pieces, RegexPreTokenizer.pre_tokenize (some ⟨fun _ => [⟨2, 4⟩, ⟨6, 8⟩]⟩)
        ['a', 'b', '1', '2', 'c', 'd', '3', '4'] = .ok pieces ∧
      pieces.map List.length = [2, 2] ∧ (pieces.map List.length).sum ≤ 8 := by
  obtain ⟨pieces, h1, h2, h3, _⟩ := regex_pre_tokenize_bounded ⟨fun _ => [⟨2, 4⟩, ⟨6, 8⟩]⟩
    ['a', 'b', '1', '2', 'c', 'd', '3', '4'] (by simp [SIZE_MOD])
    (by
      intro m hmem
      simp only [List.mem_cons, List.mem_singleton, List.not_mem_nil, or_false] at hmem
      rcases hmem with rfl | rfl <;> simp)
    (by simp [List.Chain'])
  exact ⟨pieces, h1, by simpa using h2, by simpa using h3⟩

/-! ## Sequences: coverage and nesting -/

/-- The splitters of a list of strategies are the `pre_tokenize` of its elements. -/
theorem PreTokenizer.splitters_eq_map (env : Env) (ts : List PreTokenizer) :
    PreTokenizer.splitters env ts = ts.map (PreTokenizer.pre_tokenize env) := by
  induction ts with
  | nil => rfl
  | cons t rest ih => simp [PreTokenizer.splitters, ih]

/-- One step of a sequence with a child that covers its input: the pieces
pushed concatenate to the concatenation of the pieces read. -/
theorem SequencePreTokenizer.refine_covers (f : Splitter)
    (hf : ∀ p, ∃ ps, f p = .ok ps ∧ ps.flatten = p) (pieces new_pieces : List Text) :
    ∃ r, SequencePreTokenizer.refine f pieces new_pieces = .ok r ∧
      r.flatten = new_pieces.flatten ++ pieces.flatten := by
  induction pieces generalizing new_pieces with
  | nil => exact ⟨new_pieces, rfl, by simp⟩
  | cons p rest ih =>
    obtain ⟨ps, hps, hflat⟩ := hf p
    obtain ⟨r, hr, hrflat⟩ := ih (new_pieces ++ ps)
    refine ⟨r, ?_, ?_⟩
    · simp only [SequencePreTokenizer.refine, hps, hr]
    · rw [hrflat, List.flatten_append, hflat, List.flatten_cons, List.append_assoc]

/-- The loop over children that all cover their input keeps the concatenation
of the pieces. -/
theorem SequencePreTokenizer.run_covers (fs : List Splitter)
    (hfs : ∀ f ∈ fs, ∀ p, ∃ ps, f p = .ok ps ∧ ps.flatten = p) (pieces : List Text) :
    ∃ r, SequencePreTokenizer.run fs pieces = .ok r ∧ r.flatten = pieces.flatten := by
  induction fs generalizing pieces with
  | nil => exact ⟨pieces, rfl, rfl⟩
  | cons f rest ih =>
    obtain ⟨np, hnp, hflat⟩ :=
      SequencePreTokenizer.refine_covers f (hfs f (List.mem_cons_self f rest)) pieces []
    obtain ⟨r, hr, hrflat⟩ := ih (fun g hg => hfs g (List.mem_cons_of_mem f hg)) np
    refine ⟨r, ?_, ?_⟩
    · simp only [SequencePreTokenizer.run, hnp, hr]
    · rw [hrflat, hflat]
      simp

/-- C19. A sequence keeps coverage: when every child gives, for every input,
pieces that concatenate to that input, the sequence gives, for every input,
pieces that concatenate to it; the list of children may be empty. -/
theorem sequence_preserves_coverage (env : Env) (cs : List PreTokenizer)
    (hcov : ∀ c ∈ cs, ∀ p, ∃ ps, c.pre_tokenize env p = .ok ps ∧ ps.flatten = p) (x : Text) :
    ∃ r, (PreTokenizer.Sequence cs).pre_tokenize env x = .ok r ∧ r.flatten = x := by
  have hfs : ∀ f ∈ PreTokenizer.splitters env cs,
      ∀ p, ∃ ps, f p = .ok ps ∧ ps.flatten = p := by
    intro f hf
    rw [PreTokenizer.splitters_eq_map, List.mem_map] at hf
    obtain ⟨c, hc, rfl⟩ := hf
    exact hcov c hc
  obtain ⟨r, hr, hflat⟩ := SequencePreTokenizer.run_covers _ hfs [x]
  refine ⟨r, ?_, by simpa using hflat⟩
  simp only [PreTokenizer.pre_tokenize, SequencePreTokenizer.pre_tokenize, hr]

/-- The witness of C19: a sequence of two byte-level children, with an engine
that returns the text as one piece. -/
theorem sequence_preserves_coverage_witness :
    ∃ r, (PreTokenizer.Sequence [.ByteLevel "a" false, .ByteLevel "b" false]).pre_tokenize
        example_env ['h', 'i'] = .ok r ∧ r.flatten = ['h', 'i'] :=
  sequence_preserves_coverage example_env [.ByteLevel "a" false, .ByteLevel "b" false]
    (by
      intro c hc p
      simp only [List.mem_cons, List.mem_singleton, List.not_mem_nil, or_false] at hc
      rcases hc with rfl | rfl <;>
        exact ⟨[p], by
          simp [PreTokenizer.pre_tokenize, ByteLevelPreTokenizer.pre_tokenize,
            ByteLevelPreTokenizer.formatted_input, example_env], by simp⟩)
    ['h', 'i']

/-- A throw of `mapM` is the throw of the function on one of the elements. -/
theorem mapM_error {α β : Type} {f : α → Except Error β} {l : List α} {e : Error}
    (h : l.mapM f = .error e) : ∃ x ∈ l, f x = .error e := by
  induction l with
  | nil =>
    rw [List.mapM_nil] at h
    simp [pure, Except.pure] at h
  | cons a rest ih =>
    rw [List.mapM_cons] at h
    cases ha : f a with
    | error e' =>
      rw [ha] at h
      simp only [bind, Except.bind, Except.error.injEq] at h
      subst h
      exact ⟨a, List.mem_cons_self a rest, ha⟩
    | ok b =>
      cases hr : rest.mapM f with
      | ok bs =>
        rw [ha, hr] at h
        simp [bind, Except.bind, pure, Except.pure] at h
      | error e' =>
        rw [ha, hr] at h
        simp only [bind, Except.bind, Except.error.injEq] at h
        subst h
        obtain ⟨x, hx, hxe⟩ := ih hr
        exact ⟨x, List.mem_cons_of_mem a hx, hxe⟩

/-- A throw of one step of a sequence is the throw of the child on a piece. -/
theorem SequencePreTokenizer.refine_error {f : Splitter} {pieces new_pieces : List Text}
    {e : Error} (h : SequencePreTokenizer.refine f pieces new_pieces = .error e) :
    ∃ p ∈ pieces, f p = .error e := by
  rw [SequencePreTokenizer.refine_eq] at h
  cases hm : pieces.mapM f with
  | ok subs =>
    rw [hm] at h
    simp [Except.map] at h
  | error e' =>
    rw [hm] at h
    simp only [Except.map, Except.error.injEq] at h
    subst h
    exact mapM_error hm

/-- A throw of the loop over the children is the throw of a child on a piece. -/
theorem SequencePreTokenizer.run_error {fs : List Splitter} {pieces : List Text} {e : Error}
    (h : SequencePreTokenizer.run fs pieces = .error e) :
    ∃ f ∈ fs, ∃ p, f p = .error e := by
  induction fs generalizing pieces with
  | nil => simp [SequencePreTokenizer.run] at h
  | cons f rest ih =>
    simp only [SequencePreTokenizer.run] at h
    cases hr : SequencePreTokenizer.refine f pieces [] with
    | error e' =>
      simp only [hr, Except.error.injEq] at h
      subst h
      obtain ⟨p, _, hp⟩ := SequencePreTokenizer.refine_error hr
      exact ⟨f, List.mem_cons_self f rest, p, hp⟩
    | ok np =>
      simp only [hr] at h
      obtain ⟨g, hg, p, hp⟩ := ih h
      exact ⟨g, List.mem_cons_of_mem f hg, p, hp⟩

/-- The loop over the matches throws nothing but the `out_of_range` of `substr`. -/
theorem RegexPreTokenizer.push_matches_error (x : Text) (ms : List Match) (results : List Text)
    (e : Error) (h : RegexPreTokenizer.push_matches x ms results = .error e) :
    e = .substr_out_of_range := by
  induction ms generalizing results with
  | nil => simp [RegexPreTokenizer.push_matches] at h
  | cons m rest ih =>
    simp only [RegexPreTokenizer.push_matches, substr] at h
    split_ifs at h
    · simp only [Except.error.injEq] at h
      exact h.symm
    · exact ih _ h

/-- The method `pre_tokenize` of a strategy throws nothing but the `out_of_range`
of `substr`. -/
theorem PreTokenizer.pre_tokenize_error (env : Env) (t : PreTokenizer) :
    ∀ x e, t.pre_tokenize env x = .error e → e = .substr_out_of_range := by
  suffices aux : ∀ n, ∀ t : PreTokenizer, sizeOf t = n →
      ∀ x e, t.pre_tokenize env x = .error e → e = .substr_out_of_range from aux _ t rfl
  intro n
  induction n using Nat.strong_induction_on with
  | _ n ih =>
    intro t hn x e h
    cases t with
    | Regex regex_ =>
      cases regex_ with
      | none => simp [PreTokenizer.pre_tokenize, RegexPreTokenizer.pre_tokenize] at h
      | some re =>
        simp only [PreTokenizer.pre_tokenize, RegexPreTokenizer.pre_tokenize] at h
        exact RegexPreTokenizer.push_matches_error _ _ _ _ h
    | Digits d => simp [PreTokenizer.pre_tokenize] at h
    | ByteLevel p a => simp [PreTokenizer.pre_tokenize] at h
    | Sequence cs =>
      simp only [PreTokenizer.pre_tokenize, SequencePreTokenizer.pre_tokenize] at h
      obtain ⟨f, hf, p, hp⟩ := SequencePreTokenizer.run_error h
      rw [PreTokenizer.splitters_eq_map, List.mem_map] at hf
      obtain ⟨c, hc, rfl⟩ := hf
      have hlt := List.sizeOf_lt_of_mem hc
      have hsz : sizeOf c < n := by
        rw [← hn]
        simp only [PreTokenizer.Sequence.sizeOf_spec]
        omega
      exact ih (sizeOf c) hsz c rfl p e hp

namespace SequencePreTokenizer

/-- One step of a sequence on pieces already pushed: what it pushes comes after
them. -/
theorem refine_acc (f : Splitter) (pieces new_pieces : List Text) :
    refine f pieces new_pieces =
      match refine f pieces [] with
      | .ok r => .ok (new_pieces ++ r)
      | .error e => .error e := by
  rw [refine_eq f pieces new_pieces, refine_eq f pieces []]
  cases pieces.mapM f with
  | ok subs => simp [Except.map]
  | error e => simp [Except.map]

/-- One step of a sequence on two runs of pieces: the first run, then the
second. -/
theorem refine_append (f : Splitter) (l₁ l₂ new_pieces : List Text) :
    refine f (l₁ ++ l₂) new_pieces =
      match refine f l₁ new_pieces with
      | .ok r => refine f l₂ r
      | .error e => .error e := by
  induction l₁ generalizing new_pieces with
  | nil => simp [refine]
  | cons p rest ih =>
    simp only [List.cons_append, refine]
    cases f p with
    | ok subs => exact ih _
    | error e => rfl

/-- The loop over the children on no piece gives no piece. -/
theorem run_nil_pieces (fs : List Splitter) : run fs [] = .ok [] := by
  induction fs with
  | nil => rfl
  | cons f rest ih => simp [run, refine, ih]

/-- The loop over two lists of children: the first list, then the second on
its result. -/
theorem run_append (fs gs : List Splitter) (pieces : List Text) :
    run (fs ++ gs) pieces =
      match run fs pieces with
      | .ok r => run gs r
      | .error e => .error e := by
  induction fs generalizing pieces with
  | nil => simp [run]
  | cons f rest ih =>
    simp only [List.cons_append, run]
    cases refine f pieces [] with
    | ok np => exact ih _
    | error e => rfl

/-- The loop over children that throw nothing but `e₀`, on two runs of pieces:
the results of the two runs, one after the other. -/
theorem run_pieces_append (e₀ : Error) (fs : List Splitter)
    (hfs : ∀ f ∈ fs, ∀ p e, f p = .error e → e = e₀) (l₁ l₂ : List Text) :
    run fs (l₁ ++ l₂) =
      match run fs l₁ with
      | .ok a =>
        match run fs l₂ with
        | .ok b => .ok (a ++ b)
        | .error e => .error e
      | .error e => .error e := by
  induction fs generalizing l₁ l₂ with
  | nil => simp [run]
  | cons f rest ih =>
    have hrest : ∀ g ∈ rest, ∀ p e, g p = .error e → e = e₀ :=
      fun g hg => hfs g (List.mem_cons_of_mem f hg)
    simp only [run]
    rw [refine_append]
    cases h₁ : refine f l₁ [] with
    | error e => rfl
    | ok n₁ =>
      simp only
      rw [refine_acc f l₂ n₁]
      cases h₂ : refine f l₂ [] with
      | ok n₂ => simp only [ih hrest]
      | error e₂ =>
        simp only
        obtain ⟨p, _, hp⟩ := refine_error h₂
        have he₂ := hfs f (List.mem_cons_self f rest) p e₂ hp
        cases h₃ : run rest n₁ with
        | ok a => rfl
        | error e₃ =>
          obtain ⟨g, hg, q, hq⟩ := run_error h₃
          have he₃ := hrest g hg q e₃ hq
          simp only [he₂, he₃]

/-- A child that is itself a sequence, of children that throw nothing but `e₀`:
one step with it is the loop over its children on all the pieces. -/
theorem refine_nested (e₀ : Error) (fs : List Splitter)
    (hfs : ∀ f ∈ fs, ∀ p e, f p = .error e → e = e₀) (pieces : List Text) :
    refine (pre_tokenize fs) pieces [] = run fs pieces := by
  induction pieces with
  | nil => simp [refine, run_nil_pieces]
  | cons p rest ih =>
    have happ := run_pieces_append e₀ fs hfs [p] rest
    simp only [List.singleton_append] at happ
    rw [happ]
    simp only [refine, pre_tokenize, List.nil_append]
    cases run fs [p] with
    | error e => rfl
    | ok sub =>
      simp only
      rw [refine_acc, ih]

end SequencePreTokenizer

/-- The virtual `pre_tokenize` of the children of a sequence throws nothing but
the `out_of_range` of `substr`. -/
theorem PreTokenizer.splitters_error (env : Env) (ts : List PreTokenizer) :
    ∀ f ∈ PreTokenizer.splitters env ts, ∀ p e, f p = .error e → e = .substr_out_of_range := by
  intro f hf p e h
  rw [PreTokenizer.splitters_eq_map, List.mem_map] at hf
  obtain ⟨t, _, rfl⟩ := hf
  exact PreTokenizer.pre_tokenize_error env t p e h

/-- C18. Nesting sequences is flattening them: a sequence of the children
`xs ++ ys` gives on every input what the sequence of the two sequences of `xs`
and of `ys` gives; and a sequence of one child gives what the child gives. -/
theorem nested_sequence_eq_flat (env : Env) (xs ys : List PreTokenizer) (c : PreTokenizer)
    (x : Text) :
    (PreTokenizer.Sequence (xs ++ ys)).pre_tokenize env x =
      (PreTokenizer.Sequence [.Sequence xs, .Sequence ys]).pre_tokenize env x ∧
    (PreTokenizer.Sequence [c]).pre_tokenize env x = c.pre_tokenize env x := by
  constructor
  · have hx := SequencePreTokenizer.refine_nested .substr_out_of_range
      (PreTokenizer.splitters env xs) (PreTokenizer.splitters_error env xs)
    have hy := SequencePreTokenizer.refine_nested .substr_out_of_range
      (PreTokenizer.splitters env ys) (PreTokenizer.splitters_error env ys)
    have happ : PreTokenizer.splitters env (xs ++ ys) =
        PreTokenizer.splitters env xs ++ PreTokenizer.splitters env ys := by
      simp [PreTokenizer.splitters_eq_map]
    simp only [PreTokenizer.pre_tokenize, PreTokenizer.splitters]
    rw [happ]
    simp only [SequencePreTokenizer.pre_tokenize, SequencePreTokenizer.run]
    rw [SequencePreTokenizer.run_append]
    have hx' := hx [x]
    simp only [SequencePreTokenizer.pre_tokenize] at hx' hy
    rw [hx']
    cases SequencePreTokenizer.run (PreTokenizer.splitters env xs) [x] with
    | error e => rfl
    | ok np =>
      simp only
      rw [hy np]
      cases SequencePreTokenizer.run (PreTokenizer.splitters env ys) np <;> rfl
  · simp only [PreTokenizer.pre_tokenize, PreTokenizer.splitters,
      SequencePreTokenizer.pre_tokenize, SequencePreTokenizer.run, SequencePreTokenizer.refine]
    cases c.pre_tokenize env x with
    | error e => rfl
    | ok subs => simp [SequencePreTokenizer.refine]

/-! ## The pattern of a parsed byte-level configuration -/

/-- C20. A `ByteLevel` description, whatever other members it has, parses from a
fresh configuration into one with the type set, `add_prefix_space` set to the
boolean of that member when the description has it, and `pattern`,
`individual_digits` and the children unset; the strategy built from it holds
`GPT2_EXPR` and splits every input with it. -/
theorem parsed_byte_level_has_default_pattern (env : Env) (kvs : List (String × Json))
    (cfg : PreTokenizerConfig)
    (ht : kvs.lookup "type" = some (.string "ByteLevel"))
    (hparse : parse_json (init "") (.object kvs) = .ok cfg) :
    cfg.type = "ByteLevel" ∧ cfg.pattern = none ∧ cfg.individual_digits = none ∧
    cfg.pretokenizers = none ∧
    ((kvs.lookup "add_prefix_space" = none ∧ cfg.add_prefix_space = none) ∨
      ∃ b, kvs.lookup "add_prefix_space" = some (.boolean b) ∧ cfg.add_prefix_space = some b) ∧
    ∃ a, create env cfg = .ok (.ByteLevel ByteLevelPreTokenizer.GPT2_EXPR a) ∧
      ∀ x, built_pre_tokenize env (create env cfg) x =
        .ok (env.unicode_regex_split (ByteLevelPreTokenizer.formatted_input a x)
          [ByteLevelPreTokenizer.GPT2_EXPR]) := by
  have hemp : ("" : String).isEmpty = true := by decide
  rw [parse_json_byte_level (init "") kvs ht] at hparse
  cases hl : kvs.lookup "add_prefix_space" with
  | none =>
    simp only [Json.at_key, hl, bind, Except.bind, try_assign, Except.ok.injEq] at hparse
    subst hparse
    refine ⟨rfl, rfl, rfl, rfl, Or.inl ⟨rfl, rfl⟩,
      ByteLevelPreTokenizer.default_add_prefix_space, ?_, ?_⟩ <;>
      simp [create, init, ByteLevelPreTokenizer.new, ByteLevelPreTokenizer.default_pattern,
        hemp, built_pre_tokenize, PreTokenizer.pre_tokenize, ByteLevelPreTokenizer.pre_tokenize]
  | some v =>
    cases v with
    | boolean b =>
      simp only [Json.at_key, hl, bind, Except.bind, Json.get_bool, try_assign,
        Except.ok.injEq] at hparse
      subst hparse
      refine ⟨rfl, rfl, rfl, rfl, Or.inr ⟨b, rfl, rfl⟩, b, ?_, ?_⟩ <;>
        simp [create, init, ByteLevelPreTokenizer.new, ByteLevelPreTokenizer.default_pattern,
          hemp, built_pre_tokenize, PreTokenizer.pre_tokenize,
          ByteLevelPreTokenizer.pre_tokenize]
    | null => simp [Json.at_key, hl, bind, Except.bind, Json.get_bool, try_assign] at hparse
    | number n => simp [Json.at_key, hl, bind, Except.bind, Json.get_bool, try_assign] at hparse
    | string s => simp [Json.at_key, hl, bind, Except.bind, Json.get_bool, try_assign] at hparse
    | array xs => simp [Json.at_key, hl, bind, Except.bind, Json.get_bool, try_assign] at hparse
    | object l => simp [Json.at_key, hl, bind, Except.bind, Json.get_bool, try_assign] at hparse

/-- The witness of C20: a `ByteLevel` description with a `pattern` member and
the flag set parses without pattern and builds with `GPT2_EXPR`. -/
theorem parsed_byte_level_has_default_pattern_witness :
    parse_json (init "")
        (.object [("type", .string "ByteLevel"),
          ("pattern", .object [("Regex", .string "[0-9]+")]),
          ("add_prefix_space", .boolean true)]) =
      .ok { init "ByteLevel" with add_prefix_space := some true } ∧
    ∃ a, create example_env { init "ByteLevel" with add_prefix_space := some true } =
      .ok (.ByteLevel ByteLevelPreTokenizer.GPT2_EXPR a) := by
  have hp : parse_json (init "")
      (.object [("type", .string "ByteLevel"),
        ("pattern", .object [("Regex", .string "[0-9]+")]),
        ("add_prefix_space", .boolean true)]) =
      .ok { init "ByteLevel" with add_prefix_space := some true } := by
    simp [parse_json_unfold, Json.at_key, List.lookup, Json.get_string, Json.get_bool, bind,
      Except.bind, try_assign, init]
  obtain ⟨_, _, _, _, _, a, ha, _⟩ := parsed_byte_level_has_default_pattern example_env
    [("type", .string "ByteLevel"), ("pattern", .object [("Regex", .string "[0-9]+")]),
      ("add_prefix_space", .boolean true)]
    { init "ByteLevel" with add_prefix_space := some true } (by simp [List.lookup]) hp
  exact ⟨hp, a, ha⟩

/-! ## Coverage of the default byte-level pattern -/

namespace Engine

theorem run_length_le (p : Char → Bool) (t : Text) : run_length p t ≤ t.length := by
  induction t with
  | nil => simp [run_length]
  | cons c cs ih =>
    simp only [run_length, List.length_cons]
    split_ifs <;> omega

theorem run_length_pos (p : Char → Bool) (c : Char) (cs : Text) (h : p c = true) :
    0 < run_length p (c :: cs) := by
  simp [run_length, h]

/-- A contraction that matches is not empty and lies inside the text. -/
theorem contraction_bounds (t : Text) (n : Nat) (h : contraction t = some n) :
    0 < n ∧ n ≤ t.length := by
  simp only [contraction, Option.map_eq_some'] at h
  obtain ⟨pre, hfind, rfl⟩ := h
  have hmem := List.mem_of_find?_eq_some hfind
  have hpre := List.find?_some hfind
  have hle := (List.isPrefixOf_iff_prefix.1 hpre).length_le
  refine ⟨?_, hle⟩
  simp only [CONTRACTIONS, List.mem_cons, List.mem_singleton, List.not_mem_nil,
    or_false] at hmem
  rcases hmem with rfl | rfl | rfl | rfl | rfl | rfl | rfl <;> simp

/-- A spaced run that matches is not empty and lies inside the text. -/
theorem spaced_run_bounds (p : Char → Bool) (t : Text) (n : Nat)
    (h : spaced_run p t = some n) : 0 < n ∧ n ≤ t.length := by
  have hle := run_length_le p t
  unfold spaced_run at h
  split at h
  · next rest =>
    have hle' := run_length_le p rest
    simp only [List.length_cons] at hle ⊢
    split_ifs at h <;> simp only [Option.some.injEq] at h <;> omega
  · split_ifs at h
    simp only [Option.some.injEq] at h
    omega

/-- A whitespace run before whitespace or the end that matches is not empty and
lies inside the text. -/
theorem space_run_before_space_bounds (cls : Classes) (t : Text) (n : Nat)
    (h : space_run_before_space cls t = some n) : 0 < n ∧ n ≤ t.length := by
  have hle := run_length_le cls.space t
  simp only [space_run_before_space] at h
  split_ifs at h <;> simp only [Option.some.injEq] at h <;> omega

/-- A whitespace run that matches is not empty and lies inside the text. -/
theorem space_run_bounds (cls : Classes) (t : Text) (n : Nat)
    (h : space_run cls t = some n) : 0 < n ∧ n ≤ t.length := by
  have hle := run_length_le cls.space t
  simp only [space_run] at h
  split_ifs at h
  simp only [Option.some.injEq] at h
  omega

/-- A spaced run matches a text that starts with a char of the class. -/
theorem spaced_run_some (p : Char → Bool) (c : Char) (cs : Text) (h : p c = true) :
    ∃ n, spaced_run p (c :: cs) = some n := by
  have hpos := run_length_pos p c cs h
  unfold spaced_run
  split
  · simp only [hpos, if_true]
    split_ifs <;> exact ⟨_, rfl⟩
  · rw [if_pos hpos]
    exact ⟨_, rfl⟩

/-- The default pattern matches at the start of every text that is not empty,
and its match is not empty and lies inside the text. -/
theorem gpt2_match_exhaustive (cls : Classes) (t : Text) (ht : t ≠ []) :
    ∃ n, gpt2_match cls t = some n ∧ 0 < n ∧ n ≤ t.length := by
  cases t with
  | nil => exact absurd rfl ht
  | cons c cs =>
    simp only [gpt2_match]
    cases h₁ : contraction (c :: cs) with
    | some n => exact ⟨n, rfl, contraction_bounds _ _ h₁⟩
    | none =>
      cases h₂ : spaced_run cls.letter (c :: cs) with
      | some n => exact ⟨n, rfl, spaced_run_bounds _ _ _ h₂⟩
      | none =>
        cases h₃ : spaced_run cls.number (c :: cs) with
        | some n => exact ⟨n, rfl, spaced_run_bounds _ _ _ h₃⟩
        | none =>
          cases h₄ : spaced_run
              (fun c => !cls.space c && !cls.letter c && !cls.number c) (c :: cs) with
          | some n => exact ⟨n, rfl, spaced_run_bounds _ _ _ h₄⟩
          | none =>
            cases h₅ : space_run_before_space cls (c :: cs) with
            | some n => exact ⟨n, rfl, space_run_before_space_bounds _ _ _ h₅⟩
            | none =>
              simp only
              have hl : cls.letter c = false := by
                cases hc : cls.letter c with
                | false => rfl
                | true =>
                  obtain ⟨n, hn⟩ := spaced_run_some cls.letter c cs hc
                  rw [h₂] at hn
                  cases hn
              have hn : cls.number c = false := by
                cases hc : cls.number c with
                | false => rfl
                | true =>
                  obtain ⟨n, hn⟩ := spaced_run_some cls.number c cs hc
                  rw [h₃] at hn
                  cases hn
              have hs : cls.space c = true := by
                cases hc : cls.space c with
                | true => rfl
                | false =>
                  obtain ⟨n, hn⟩ := spaced_run_some
                    (fun c => !cls.space c && !cls.letter c && !cls.number c) c cs
                    (by simp [hc, hl, hn])
                  rw [h₄] at hn
                  cases hn
              have hpos := run_length_pos cls.space c cs hs
              refine ⟨run_length cls.space (c :: cs), ?_, hpos, run_length_le _ _⟩
              simp [space_run, hpos]

/-- With a pattern that matches a non-empty prefix of every non-empty text, the
pieces of the exhaustive split concatenate to the text. -/
theorem exhaustive_split_covers (pattern : Text → Option Nat)
    (hp : ∀ t, t ≠ [] → ∃ n, pattern t = some n ∧ 0 < n) (text : Text) :
    (exhaustive_split pattern text).flatten = text := by
  suffices aux : ∀ rounds (t : Text), t.length ≤ rounds →
      (exhaustive_split_rounds pattern rounds t).flatten = t from aux _ text (Nat.le_refl _)
  intro rounds
  induction rounds with
  | zero =>
    intro t ht
    have : t = [] := List.length_eq_zero.1 (Nat.le_zero.1 ht)
    subst this
    rfl
  | succ k ih =>
    intro t ht
    cases t with
    | nil => rfl
    | cons c cs =>
      obtain ⟨n, hn, hpos⟩ := hp (c :: cs) (by simp)
      obtain ⟨m, rfl⟩ : ∃ m, n = m + 1 := ⟨n - 1, by omega⟩
      simp only [exhaustive_split_rounds, hn, List.flatten_cons]
      rw [ih _ (by simp only [List.length_drop, List.length_cons] at ht ⊢; omega)]
      exact List.take_append_drop _ _

end Engine

/-- C11. Coverage of the default byte-level pattern: the default alternation
matches a non-empty prefix of every non-empty text, so with an engine that
splits by it, without prefix space and with the default pattern, the pieces of
`pre_tokenize` concatenate in order to the input. -/
theorem byte_level_default_covers (cls : Classes) (env : Env)
    (henv : ∀ t, env.unicode_regex_split t [ByteLevelPreTokenizer.GPT2_EXPR] =
      Engine.exhaustive_split (Engine.gpt2_match cls) t) (x : Text) :
    (∀ t : Text, t ≠ [] → ∃ n, Engine.gpt2_match cls t = some n ∧ 0 < n ∧ n ≤ t.length) ∧
    ∃ pieces, (ByteLevelPreTokenizer.new false "").pre_tokenize env x = .ok pieces ∧
      pieces.flatten = x := by
  have hemp : ("" : String).isEmpty = true := by decide
  refine ⟨Engine.gpt2_match_exhaustive cls,
    Engine.exhaustive_split (Engine.gpt2_match cls) x, ?_, ?_⟩
  · simp [ByteLevelPreTokenizer.new, hemp, PreTokenizer.pre_tokenize,
      ByteLevelPreTokenizer.pre_tokenize, henv, ByteLevelPreTokenizer.formatted_input]
  · exact Engine.exhaustive_split_covers _
      (fun t ht => by
        obtain ⟨n, hn, hpos, _⟩ := Engine.gpt2_match_exhaustive cls t ht
        exact ⟨n, hn, hpos⟩) x

/-- The witness of C11: over the ASCII classes, the pieces for "I'm 5 x! ". -/
theorem byte_level_default_covers_witness :
    (ByteLevelPreTokenizer.new false "").pre_tokenize Engine.ascii_env
        ['I', Char.ofNat 39, 'm', ' ', '5', ' ', 'x', '!', ' '] =
      .ok [['I'], [Char.ofNat 39, 'm'], [' ', '5'], [' ', 'x'], ['!'], [' ']] ∧
    ∃ pieces, (ByteLevelPreTokenizer.new false "").pre_tokenize Engine.ascii_env
        ['I', Char.ofNat 39, 'm', ' ', '5', ' ', 'x', '!', ' '] = .ok pieces ∧
      pieces.flatten = ['I', Char.ofNat 39, 'm', ' ', '5', ' ', 'x', '!', ' '] :=
  ⟨rfl,
    (byte_level_default_covers Engine.ascii Engine.ascii_env (fun _ => rfl)
      ['I', Char.ofNat 39, 'm', ' ', '5', ' ', 'x', '!', ' ']).2⟩

end tokenizers
